import Mathlib

/-!
Verification of the rag-ollama webhook relay against its specification.

The Python sources are shallowly embedded as executable Lean definitions:
bytes are lists of naturals below 256, 32-bit arithmetic is `Nat` with
explicit reduction modulo 2 ^ 32, library primitives (hashlib, base64,
the regex engine, the filesystem, HTTP) are either implemented directly
(SHA-256, SHA-1, HMAC, base64, the concrete regular expressions of the
sources) or passed in as explicit inputs (filesystem snapshots, parser
outcomes, HTTP responses), and every fallible operation returns an
`Option`/`Except` value.
-/

set_option maxRecDepth 10000

/-! ## Bytes, hex and base64 (models of bytes, digest.hex(), base64.b64encode/b64decode) -/

/-- A byte string: every element is expected to lie below 256. -/
abbrev Bytes := List Nat

/-- UTF-8 encoding of one scalar value, as in CPython str.encode. -/
def utf8Char (n : Nat) : Bytes :=
  if n < 128 then [n]
  else if n < 2048 then [192 + n / 64, 128 + n % 64]
  else if n < 65536 then [224 + n / 4096, 128 + n / 64 % 64, 128 + n % 64]
  else [240 + n / 262144, 128 + n / 4096 % 64, 128 + n / 64 % 64, 128 + n % 64]

/-- Model of Python str.encode("utf-8"). -/
def strBytes (s : String) : Bytes :=
  s.data.flatMap (fun c => utf8Char c.toNat)

/-- The base64 alphabet, in order. -/
def b64Alphabet : List Char :=
  "ABCDEFGHIJKLMNOPQRSTUVWXYZabcdefghijklmnopqrstuvwxyz0123456789+/".data

/-- Character for a 6-bit group. -/
def b64Char (n : Nat) : Char :=
  b64Alphabet.getD n (Char.ofNat 65)

/-- Index of a character in the base64 alphabet, none when absent. -/
def b64Index (c : Char) : Option Nat :=
  let rec go : List Char → Nat → Option Nat
    | [], _ => none
    | d :: ds, i => if d = c then some i else go ds (i + 1)
  go b64Alphabet 0

/-- Core of base64 encoding: three bytes become four characters,
    shorter tails are padded with the = character. -/
def b64encodeCore : Bytes → List Char
  | [] => []
  | [a] =>
      [b64Char (a / 4), b64Char (a % 4 * 16), Char.ofNat 61, Char.ofNat 61]
  | [a, b] =>
      [b64Char (a / 4), b64Char (a % 4 * 16 + b / 16), b64Char (b % 16 * 4), Char.ofNat 61]
  | a :: b :: c :: rest =>
      b64Char (a / 4) :: b64Char (a % 4 * 16 + b / 16) ::
      b64Char (b % 16 * 4 + c / 64) :: b64Char (c % 64) :: b64encodeCore rest

/-- Model of base64.b64encode(..).decode("utf-8"). -/
def b64encode (bs : Bytes) : String :=
  String.mk (b64encodeCore bs)

/-- One pass of binascii.a2b_base64 in its default non-strict mode, the
    loop base64.b64decode runs. State: the accumulated bit value and
    position of the current quadruple, the count of padding characters
    seen since the last data character (only counted at quad position two
    or more, as the C short-circuit does), and the output bytes in
    reverse. A padding character completing a quadruple flushes the
    partial group and ends decoding, discarding the rest of the input;
    other non-alphabet characters are skipped; leftover data characters
    at the end of input are a binascii error (none). -/
def b64decodeGo : List Char → Nat → Nat → Nat → Bytes → Option Bytes
  | [], _, quadPos, _, acc =>
      if quadPos = 0 then some acc.reverse else none
  | c :: rest, quadVal, quadPos, pads, acc =>
      if c = Char.ofNat 61 then
        if 2 ≤ quadPos then
          if 4 ≤ quadPos + (pads + 1) then
            if quadPos = 2 then some (acc.reverse ++ [quadVal / 16])
            else some (acc.reverse ++ [quadVal / 1024, quadVal / 4 % 256])
          else b64decodeGo rest quadVal quadPos (pads + 1) acc
        else b64decodeGo rest quadVal quadPos pads acc
      else
        match b64Index c with
        | some v =>
            if quadPos = 3 then
              b64decodeGo rest 0 0 0
                ((quadVal * 64 + v) % 256 :: (quadVal * 64 + v) / 256 % 256 ::
                  (quadVal * 64 + v) / 65536 :: acc)
            else b64decodeGo rest (quadVal * 64 + v) (quadPos + 1) pads acc
        | none => b64decodeGo rest quadVal quadPos pads acc

/-- Model of base64.b64decode on a str argument with the default
    validate=False: the argument is first encoded as ASCII (a non-ASCII
    character raises), then handed to binascii.a2b_base64 in non-strict
    mode; none models the raised binascii.Error / ValueError. -/
def b64decodePy (s : String) : Option Bytes :=
  if s.data.all (fun c => c.toNat < 128) then b64decodeGo s.data 0 0 0 [] else none

/-- Hex digit characters. -/
def hexDigits : List Char := "0123456789abcdef".data

/-- Model of bytes.hex(). -/
def bytesHex (bs : Bytes) : String :=
  String.mk (bs.flatMap (fun b => [hexDigits.getD (b / 16) (Char.ofNat 48), hexDigits.getD (b % 16) (Char.ofNat 48)]))

example : b64encode (strBytes "Man") = "TWFu" := by decide
example : b64encode (strBytes "Ma") = "TWE=" := by decide
example : b64encode (strBytes "M") = "TQ==" := by decide
example : b64decodePy "TWFu" = some (strBytes "Man") := by decide
example : b64decodePy "TQ==" = some [77] := by decide
example : b64decodePy "TWFu=TWFu" = some (strBytes "ManMan") := by decide
example : b64decodePy "TW=" = none := by decide
example : b64decodePy "TW==" = some [77] := by decide
example : b64decodePy "TW=A=" = some [77, 96] := by decide
example : b64decodePy "TWF" = none := by decide
example : b64decodePy "TWF=" = some [77, 97] := by decide
example : b64decodePy "T" = none := by decide
example : b64decodePy "=" = some [] := by decide
example : b64decodePy "!TWFu" = some (strBytes "Man") := by decide
example : b64decodePy "TW=a" = none := by decide
example : b64decodePy "TW==A" = some [77] := by decide
example : b64decodePy "ab=" = none := by decide
example : b64decodePy "s=" = none := by decide
example : b64decodePy "TQ=Fu" = some [77, 1, 110] := by decide
example : b64decodePy "a===b" = none := by decide
example : b64decodePy "TQ==TQ==" = some [77] := by decide
example : b64decodePy "ひ" = none := by decide
example : bytesHex [0, 255, 16] = "00ff10" := by decide

/-! ## SHA-256, SHA-1 and HMAC (models of hashlib.sha256, hashlib.sha1, hmac.new) -/

/-- Rotate a 32-bit word right by n bits (word assumed below 2 ^ 32). -/
def rotr32 (n a : Nat) : Nat :=
  a / 2 ^ n + a % 2 ^ n * 2 ^ (32 - n)

/-- Rotate a 32-bit word left by n bits, reduced modulo 2 ^ 32. -/
def rotl32 (n a : Nat) : Nat :=
  (a * 2 ^ n + a / 2 ^ (32 - n)) % 2 ^ 32

/-- Bitwise complement on 32-bit words. -/
def not32 (a : Nat) : Nat :=
  Nat.xor a 4294967295

/-- Split bytes into big-endian 32-bit words (length assumed divisible by 4). -/
def bytesToWords : Bytes → List Nat
  | a :: b :: c :: d :: rest => (((a * 256 + b) * 256 + c) * 256 + d) :: bytesToWords rest
  | _ => []

/-- Big-endian bytes of one 32-bit word. -/
def wordBytes (w : Nat) : Bytes :=
  [w / 16777216 % 256, w / 65536 % 256, w / 256 % 256, w % 256]

/-- Big-endian 8-byte encoding of a 64-bit length. -/
def lenBytes64 (n : Nat) : Bytes :=
  (List.range 8).map (fun i => n / 2 ^ (8 * (7 - i)) % 256)

/-- Merkle–Damgård padding shared by SHA-1 and SHA-256: append the byte
    0x80, then zeros up to 56 mod 64, then the bit length, big endian. -/
def mdPad (msg : Bytes) : Bytes :=
  msg ++ 128 :: List.replicate ((55 + 64 - msg.length % 64) % 64) 0 ++ lenBytes64 (8 * msg.length)

/-- The 64 SHA-256 round constants. -/
def sha256K : List Nat :=
  [1116352408, 1899447441, 3049323471, 3921009573, 961987163, 1508970993,
   2453635748, 2870763221, 3624381080, 310598401, 607225278, 1426881987,
   1925078388, 2162078206, 2614888103, 3248222580, 3835390401, 4022224774,
   264347078, 604807628, 770255983, 1249150122, 1555081692, 1996064986,
   2554220882, 2821834349, 2952996808, 3210313671, 3336571891, 3584528711,
   113926993, 338241895, 666307205, 773529912, 1294757372, 1396182291,
   1695183700, 1986661051, 2177026350, 2456956037, 2730485921, 2820302411,
   3259730800, 3345764771, 3516065817, 3600352804, 4094571909, 275423344,
   430227734, 506948616, 659060556, 883997877, 958139571, 1322822218,
   1537002063, 1747873779, 1955562222, 2024104815, 2227730452, 2361852424,
   2428436474, 2756734187, 3204031479, 3329325298]

/-- Extend the 16 message words to 64, keeping the list reversed
    (head is the most recent word) so lookups stay near the head. -/
def sha256Extend : Nat → List Nat → List Nat
  | 0, acc => acc
  | n + 1, acc =>
      let w2 := acc.getD 1 0
      let w7 := acc.getD 6 0
      let w15 := acc.getD 14 0
      let w16 := acc.getD 15 0
      let s0 := Nat.xor (rotr32 7 w15) (Nat.xor (rotr32 18 w15) (w15 / 2 ^ 3))
      let s1 := Nat.xor (rotr32 17 w2) (Nat.xor (rotr32 19 w2) (w2 / 2 ^ 10))
      sha256Extend n ((w16 + s0 + w7 + s1) % 2 ^ 32 :: acc)

/-- One SHA-256 round, state as an 8-element list a..h. -/
def sha256Round (st : List Nat) (k w : Nat) : List Nat :=
  let a := st.getD 0 0
  let b := st.getD 1 0
  let c := st.getD 2 0
  let d := st.getD 3 0
  let e := st.getD 4 0
  let f := st.getD 5 0
  let g := st.getD 6 0
  let h := st.getD 7 0
  let s1 := Nat.xor (rotr32 6 e) (Nat.xor (rotr32 11 e) (rotr32 25 e))
  let ch := Nat.xor (Nat.land e f) (Nat.land (not32 e) g)
  let t1 := (h + s1 + ch + k + w) % 2 ^ 32
  let s0 := Nat.xor (rotr32 2 a) (Nat.xor (rotr32 13 a) (rotr32 22 a))
  let mj := Nat.xor (Nat.land a b) (Nat.xor (Nat.land a c) (Nat.land b c))
  let t2 := (s0 + mj) % 2 ^ 32
  [(t1 + t2) % 2 ^ 32, a, b, c, (d + t1) % 2 ^ 32, e, f, g]

/-- Compress one 64-byte block into the running state. -/
def sha256Block (h : List Nat) (block : Bytes) : List Nat :=
  let w0 := bytesToWords block
  let w := (sha256Extend 48 w0.reverse).reverse
  let final := (sha256K.zip w).foldl (fun st kw => sha256Round st kw.1 kw.2) h
  (h.zip final).map (fun p => (p.1 + p.2) % 2 ^ 32)

/-- Fold the compression function over consecutive 64-byte blocks; the
    fuel argument (any bound on the block count) keeps the recursion
    structural so that proofs can evaluate it. -/
def sha256Go : Nat → List Nat → Bytes → List Nat
  | _, h, [] => h
  | 0, h, _ => h
  | n + 1, h, bs => sha256Go n (sha256Block h (bs.take 64)) (bs.drop 64)

def sha256Blocks (h : List Nat) (bs : Bytes) : List Nat :=
  sha256Go bs.length h bs

/-- Model of hashlib.sha256(msg).digest(). -/
def sha256 (msg : Bytes) : Bytes :=
  let h0 := [1779033703, 3144134277, 1013904242, 2773480762, 1359893119, 2600822924, 528734635, 1541459225]
  (sha256Blocks h0 (mdPad msg)).flatMap wordBytes

/-- One SHA-1 round for round index t, state as a 5-element list. -/
def sha1Round (st : List Nat) (t w : Nat) : List Nat :=
  let a := st.getD 0 0
  let b := st.getD 1 0
  let c := st.getD 2 0
  let d := st.getD 3 0
  let e := st.getD 4 0
  let f :=
    if t < 20 then Nat.xor (Nat.land b c) (Nat.land (not32 b) d)
    else if t < 40 then Nat.xor b (Nat.xor c d)
    else if t < 60 then Nat.xor (Nat.land b c) (Nat.xor (Nat.land b d) (Nat.land c d))
    else Nat.xor b (Nat.xor c d)
  let k :=
    if t < 20 then 1518500249
    else if t < 40 then 1859775393
    else if t < 60 then 2400959708
    else 3395469782
  [(rotl32 5 a + f + e + k + w) % 2 ^ 32, a, rotl32 30 b, c, d]

/-- Extend the 16 SHA-1 message words to 80, reversed as for SHA-256. -/
def sha1Extend : Nat → List Nat → List Nat
  | 0, acc => acc
  | n + 1, acc =>
      let w3 := acc.getD 2 0
      let w8 := acc.getD 7 0
      let w14 := acc.getD 13 0
      let w16 := acc.getD 15 0
      sha1Extend n (rotl32 1 (Nat.xor w3 (Nat.xor w8 (Nat.xor w14 w16))) :: acc)

/-- Compress one 64-byte block for SHA-1. -/
def sha1Block (h : List Nat) (block : Bytes) : List Nat :=
  let w0 := bytesToWords block
  let w := (sha1Extend 64 w0.reverse).reverse
  let final := w.enum.foldl (fun st tw => sha1Round st tw.1 tw.2) h
  (h.zip final).map (fun p => (p.1 + p.2) % 2 ^ 32)

/-- Fold SHA-1 compression over consecutive 64-byte blocks, with fuel as
    for sha256Go. -/
def sha1Go : Nat → List Nat → Bytes → List Nat
  | _, h, [] => h
  | 0, h, _ => h
  | n + 1, h, bs => sha1Go n (sha1Block h (bs.take 64)) (bs.drop 64)

def sha1Blocks (h : List Nat) (bs : Bytes) : List Nat :=
  sha1Go bs.length h bs

/-- Model of hashlib.sha1(msg).digest(). -/
def sha1 (msg : Bytes) : Bytes :=
  let h0 := [1732584193, 4023233417, 2562383102, 271733878, 3285377520]
  (sha1Blocks h0 (mdPad msg)).flatMap wordBytes

/-- Model of hmac.new(key, msg, digestmod).digest() for a hash with a
    64-byte block size. -/
def hmacWith (hash : Bytes → Bytes) (key msg : Bytes) : Bytes :=
  let k0 := if key.length > 64 then hash key else key
  let kp := k0 ++ List.replicate (64 - k0.length) 0
  let ipad := kp.map (fun b => Nat.xor b 0x36)
  let opad := kp.map (fun b => Nat.xor b 0x5c)
  hash (opad ++ hash (ipad ++ msg))

/-- HMAC-SHA256 as used throughout teams_auth.py. -/
def hmacSha256 (key msg : Bytes) : Bytes := hmacWith sha256 key msg

/-- HMAC-SHA1 as used by the legacy digest candidates. -/
def hmacSha1 (key msg : Bytes) : Bytes := hmacWith sha1 key msg

example : sha256 (strBytes "abc") =
    [186, 120, 22, 191, 143, 1, 207, 234, 65, 65, 64, 222, 93, 174, 34, 35,
     176, 3, 97, 163, 150, 23, 122, 156, 180, 16, 255, 97, 242, 0, 21, 173] := by decide

example : sha1 (strBytes "abc") =
    [169, 153, 62, 54, 71, 6, 129, 106, 186, 62, 37, 113, 120, 80, 194, 108, 156, 208, 216, 157] := by decide

example : b64encode (hmacSha256 (strBytes "key") (strBytes "abc")) =
    "nBluMtwBdfhvSxy4konWYZ3mvuaZ5MN45oMJ7Zehpqs=" := by decide

example : hmacSha1 (strBytes "key") (strBytes "abc") =
    [79, 208, 178, 21, 39, 110, 241, 47, 43, 62, 76, 142, 202, 194, 129, 20, 152, 182, 86, 252] := by decide

/-! ## teams_auth.verify_teams_token

The request body is taken as raw bytes (routes.py passes request.get_data()).
Two library outcomes are inputs to the model: whether the body decodes as
UTF-8 (when it does, the utf8_string variant re-encodes to the same bytes,
so that variant is the body again), and the list of extra serializations
produced by the json.loads/json.dumps block (compact, canonical,
whitespace-stripped, text-only, body-only), empty when the body is not
JSON. -/

/-- Python s.rstrip("="). -/
def rstripEq (s : String) : String :=
  String.mk ((s.data.reverse.dropWhile (fun c => c = Char.ofNat 61)).reverse)

/-- Python s.endswith("="). -/
def endsWithEq (s : String) : Bool :=
  s.data.getLast? == some (Char.ofNat 61)

/-- The while loop that pads a token with = until its length is a
    multiple of four. -/
def padEq (s : String) : String :=
  s ++ String.mk (List.replicate ((4 - s.length % 4) % 4) (Char.ofNat 61))

/-- token_variants of teams_auth.verify_teams_token: the token itself, a
    padded form when it does not end in =, an unpadded form when it does,
    and a base64 decode/encode round trip exactly when base64.b64decode
    accepts the token (is_base64_token, the try around b64decode). -/
def tokenVariants (token : String) : List String :=
  [token]
    ++ (if endsWithEq token then [] else [padEq token])
    ++ (if endsWithEq token then [rstripEq token] else [])
    ++ (match b64decodePy token with
        | some d => [b64encode d]
        | none => [])

/-- data_variants: the raw bytes, the UTF-8 re-encoding when the body
    decodes (identical bytes), then the JSON-derived serializations. -/
def dataVariants (reqData : Bytes) (decodable : Bool) (jsonVars : List Bytes) : List Bytes :=
  [reqData] ++ (if decodable then [reqData] else []) ++ jsonVars

/-- Every candidate signature of the exhaustive combination loop, in loop
    order: token variant, then data variant, then digest (SHA-256 before
    SHA-1), then output format (base64, base64 without padding, hex). -/
def candidateSigs (reqData : Bytes) (token : String) (decodable : Bool) (jsonVars : List Bytes) : List String :=
  (tokenVariants token).flatMap (fun t =>
    (dataVariants reqData decodable jsonVars).flatMap (fun d =>
      [b64encode (hmacSha256 (strBytes t) d),
       rstripEq (b64encode (hmacSha256 (strBytes t) d)),
       bytesHex (hmacSha256 (strBytes t) d),
       b64encode (hmacSha1 (strBytes t) d),
       rstripEq (b64encode (hmacSha1 (strBytes t) d)),
       bytesHex (hmacSha1 (strBytes t) d)]))

/-- Removal of the HMAC prefix from the received signature. -/
def stripHmac (s : String) : String :=
  if "HMAC ".data.isPrefixOf s.data then String.mk (s.data.drop 5) else s

/-- All characters ASCII; hmac.compare_digest raises TypeError on a
    non-ASCII str, which aborts the special-case section. -/
def asciiStr (s : String) : Bool :=
  s.data.all (fun c => c.toNat < 128)

/-- The special-case section of verify_teams_token: for every token
    variant, the raw HMAC-SHA256 of the body is compared in base64 form,
    unpadded base64 form, and as raw bytes against the base64 decoding of
    the received signature (a b64decode error is swallowed by its inner
    try). A non-ASCII signature makes the first str comparison raise,
    aborting the whole section. -/
def specialAccept (reqData : Bytes) (token : String) (clean : String) : Bool :=
  asciiStr clean &&
    (tokenVariants token).any (fun t =>
      let raw := hmacSha256 (strBytes t) reqData
      b64encode raw == clean || rstripEq (b64encode raw) == clean ||
        (match b64decodePy clean with
         | some bs => bs == raw
         | none => false))

/-- Model of teams_auth.verify_teams_token: reject on a missing token or
    signature, strip the HMAC prefix, accept when any combination of the
    exhaustive loop matches, otherwise when the special-case section
    matches, and fail otherwise. -/
def verify_teams_token (reqData : Bytes) (signature : String) (token : String)
    (decodable : Bool) (jsonVars : List Bytes) : Bool :=
  if token = "" then false
  else if signature = "" then false
  else
    (candidateSigs reqData token decodable jsonVars).any (fun c => c == stripHmac signature)
      || specialAccept reqData token (stripHmac signature)

example : tokenVariants "s=" = ["s=", "s"] := by decide
example : tokenVariants "abcd" = ["abcd", "abcd", "abcd"] := by decide
example : tokenVariants "ab=" = ["ab=", "ab"] := by decide
example : stripHmac "HMAC xyz" = "xyz" := by decide

/- The base64 form of HMAC-SHA256(key s=, body ab) with a padding
   character spliced in after the fourth character still decodes to the
   raw digest under non-strict binascii decoding, so the special-case
   section accepts it although it equals no candidate string; CPython
   verify_teams_token returns True on this exact input. -/
example :
    verify_teams_token (strBytes "ab") "TLHD=D84PwDtsrUE7BL5wRekK8XmtSd9DktKtMJhL1ic="
      "s=" true [] = true := by
  have hsp : specialAccept (strBytes "ab") "s="
      (stripHmac "TLHD=D84PwDtsrUE7BL5wRekK8XmtSd9DktKtMJhL1ic=") = true := by decide
  unfold verify_teams_token
  rw [if_neg (by decide), if_neg (by decide), hsp, Bool.or_true]

/-! ### Support lemmas for the signature verifier -/

lemma sha256Round_length (st : List Nat) (k w : Nat) : (sha256Round st k w).length = 8 := rfl

lemma foldl_sha256Round_length (l : List (Nat × Nat)) :
    ∀ st : List Nat, st.length = 8 →
      (l.foldl (fun st kw => sha256Round st kw.1 kw.2) st).length = 8 := by
  induction l with
  | nil => intro st h; simpa using h
  | cons p t ih => intro st h; simpa using ih _ (sha256Round_length _ _ _)

lemma sha256Block_length (h : List Nat) (b : Bytes) (hh : h.length = 8) :
    (sha256Block h b).length = 8 := by
  unfold sha256Block
  simp [List.length_zip, hh, foldl_sha256Round_length _ _ hh]

lemma sha256Go_length (n : Nat) : ∀ (h : List Nat) (bs : Bytes), h.length = 8 →
    (sha256Go n h bs).length = 8 := by
  induction n with
  | zero => intro h bs hh; cases bs <;> simpa [sha256Go] using hh
  | succ n ih =>
      intro h bs hh
      cases bs with
      | nil => simpa [sha256Go] using hh
      | cons b t => exact ih _ _ (sha256Block_length _ _ hh)

lemma sha256_ne_nil (msg : Bytes) : sha256 msg ≠ [] := by
  unfold sha256
  have h8 : (sha256Blocks
      [1779033703, 3144134277, 1013904242, 2773480762, 1359893119, 2600822924, 528734635, 1541459225]
      (mdPad msg)).length = 8 := sha256Go_length _ _ _ rfl
  cases hst : (sha256Blocks
      [1779033703, 3144134277, 1013904242, 2773480762, 1359893119, 2600822924, 528734635, 1541459225]
      (mdPad msg)) with
  | nil => rw [hst] at h8; simp at h8
  | cons w t => simp [hst, wordBytes]

lemma hmacSha256_ne_nil (key msg : Bytes) : hmacSha256 key msg ≠ [] := by
  unfold hmacSha256 hmacWith
  exact sha256_ne_nil _

lemma b64encode_ne_empty (bs : Bytes) (h : bs ≠ []) : b64encode bs ≠ "" := by
  match bs with
  | [] => exact absurd rfl h
  | [a] => simp [b64encode, b64encodeCore, String.ext_iff]
  | [a, b] => simp [b64encode, b64encodeCore, String.ext_iff]
  | a :: b :: c :: rest => simp [b64encode, b64encodeCore, String.ext_iff]

lemma getD_mem {l : List Char} {d : Char} (hd : d ∈ l) (n : Nat) : l.getD n d ∈ l := by
  rw [List.getD_eq_getElem?_getD]
  cases h : l[n]? with
  | none => simpa [h] using hd
  | some a => simpa [h] using List.getElem?_mem h

lemma b64Char_mem (n : Nat) : b64Char n ∈ b64Alphabet :=
  getD_mem (by decide) n

lemma b64encodeCore_chars (bs : Bytes) :
    ∀ c ∈ b64encodeCore bs, c ∈ b64Alphabet ∨ c = Char.ofNat 61 := by
  match bs with
  | [] => simp [b64encodeCore]
  | [a] =>
      intro c hc
      simp only [b64encodeCore, List.mem_cons, List.not_mem_nil, or_false] at hc
      rcases hc with h | h | h | h <;> subst h <;>
        first
        | exact Or.inl (b64Char_mem _)
        | exact Or.inr rfl
  | [a, b] =>
      intro c hc
      simp only [b64encodeCore, List.mem_cons, List.not_mem_nil, or_false] at hc
      rcases hc with h | h | h | h <;> subst h <;>
        first
        | exact Or.inl (b64Char_mem _)
        | exact Or.inr rfl
  | a :: b :: c :: rest =>
      intro ch hch
      simp only [b64encodeCore, List.mem_cons] at hch
      rcases hch with h | h | h | h | h
      · exact h ▸ Or.inl (b64Char_mem _)
      · exact h ▸ Or.inl (b64Char_mem _)
      · exact h ▸ Or.inl (b64Char_mem _)
      · exact h ▸ Or.inl (b64Char_mem _)
      · exact b64encodeCore_chars rest ch h

lemma b64encode_chars (bs : Bytes) :
    ∀ c ∈ (b64encode bs).data, c ∈ b64Alphabet ∨ c = Char.ofNat 61 :=
  b64encodeCore_chars bs

lemma rstripEq_chars (s : String) : ∀ c ∈ (rstripEq s).data, c ∈ s.data := by
  intro c hc
  simp only [rstripEq] at hc
  have : c ∈ s.data.reverse.dropWhile (fun c => c = Char.ofNat 61) := by
    simpa using hc
  have := (List.dropWhile_sublist (l := s.data.reverse) (p := fun c => c = Char.ofNat 61)).subset this
  simpa using this

lemma bytesHex_chars (bs : Bytes) : ∀ c ∈ (bytesHex bs).data, c ∈ hexDigits := by
  intro c hc
  simp only [bytesHex, List.mem_flatMap] at hc
  obtain ⟨b, _, hb⟩ := hc
  simp only [List.mem_cons, List.not_mem_nil, or_false] at hb
  rcases hb with h | h <;> exact h ▸ getD_mem (by decide) _

lemma candidateSigs_chars (reqData : Bytes) (token : String) (dec : Bool) (jv : List Bytes) :
    ∀ c ∈ candidateSigs reqData token dec jv, ∀ ch ∈ c.data,
      ch ∈ b64Alphabet ∨ ch ∈ hexDigits ∨ ch = Char.ofNat 61 := by
  intro c hc ch hch
  simp only [candidateSigs, List.mem_flatMap] at hc
  obtain ⟨t, _, d, _, hmem⟩ := hc
  simp only [List.mem_cons, List.not_mem_nil, or_false] at hmem
  rcases hmem with h | h | h | h | h | h <;> subst h
  · rcases b64encode_chars _ ch hch with h | h
    · exact Or.inl h
    · exact Or.inr (Or.inr h)
  · rcases b64encode_chars _ ch (rstripEq_chars _ ch hch) with h | h
    · exact Or.inl h
    · exact Or.inr (Or.inr h)
  · exact Or.inr (Or.inl (bytesHex_chars _ ch hch))
  · rcases b64encode_chars _ ch hch with h | h
    · exact Or.inl h
    · exact Or.inr (Or.inr h)
  · rcases b64encode_chars _ ch (rstripEq_chars _ ch hch) with h | h
    · exact Or.inl h
    · exact Or.inr (Or.inr h)
  · exact Or.inr (Or.inl (bytesHex_chars _ ch hch))

lemma stripHmac_b64encode (bs : Bytes) : stripHmac (b64encode bs) = b64encode bs := by
  unfold stripHmac
  by_cases h : "HMAC ".data.isPrefixOf (b64encode bs).data
  · exfalso
    obtain ⟨t, ht⟩ := List.isPrefixOf_iff_prefix.mp h
    have hsp : Char.ofNat 32 ∈ (b64encode bs).data := by
      rw [← ht]
      refine List.mem_append.mpr (Or.inl ?_)
      decide
    rcases b64encode_chars bs _ hsp with hin | hin
    · exact absurd hin (by decide)
    · exact absurd hin (by decide)
  · simp [h]

lemma stripHmac_prepend (s : String) : stripHmac ("HMAC " ++ s) = s := by
  unfold stripHmac
  have hpre : "HMAC ".data.isPrefixOf ("HMAC " ++ s).data = true := by
    rw [String.data_append]
    exact List.isPrefixOf_iff_prefix.mpr (List.prefix_append _ _)
  rw [if_pos hpre, String.data_append,
    (by decide : (5 : Nat) = "HMAC ".data.length), List.drop_left]

lemma hmacPrefix_ne_empty (s : String) : ("HMAC " ++ s) ≠ "" := by
  intro h
  have := congrArg String.data h
  rw [String.data_append] at this
  simp [List.append_eq_nil] at this

/-- C1: for a non-empty secret the standard base64 HMAC-SHA256 signature
    over the body is accepted, with or without the HMAC scheme label; and
    a signature that matches no candidate of the combination loop and
    does not satisfy the special-case section (base64/unpadded-base64
    string match, or base64.b64decode of the signature equal to the raw
    digest, per token variant) is rejected. The claim as frozen is
    amended: matching no combination candidate alone does not imply
    rejection, because the special-case section also accepts strings that
    merely decode to the raw digest (see the counterexample). -/
theorem C1_verifier_accepts_and_rejects (B : Bytes) (S : String) (dec : Bool) (jv : List Bytes) :
    (S ≠ "" →
      verify_teams_token B (b64encode (hmacSha256 (strBytes S) B)) S dec jv = true ∧
      verify_teams_token B ("HMAC " ++ b64encode (hmacSha256 (strBytes S) B)) S dec jv = true) ∧
    (∀ sig, (∀ c ∈ candidateSigs B S dec jv, stripHmac sig ≠ c) →
      specialAccept B S (stripHmac sig) = false →
      verify_teams_token B sig S dec jv = false) := by
  have hmem : b64encode (hmacSha256 (strBytes S) B) ∈ candidateSigs B S dec jv := by
    unfold candidateSigs
    refine List.mem_flatMap.mpr ⟨S, ?_, ?_⟩
    · simp [tokenVariants]
    · refine List.mem_flatMap.mpr ⟨B, ?_, ?_⟩
      · simp [dataVariants]
      · simp
  constructor
  · intro hS
    have hd := hmacSha256_ne_nil (strBytes S) B
    have hsig : b64encode (hmacSha256 (strBytes S) B) ≠ "" := b64encode_ne_empty _ hd
    have hany : (candidateSigs B S dec jv).any
        (fun c => c == b64encode (hmacSha256 (strBytes S) B)) = true :=
      List.any_eq_true.mpr ⟨_, hmem, by simp⟩
    constructor
    · unfold verify_teams_token
      rw [if_neg hS, if_neg hsig, stripHmac_b64encode, hany, Bool.true_or]
    · unfold verify_teams_token
      rw [if_neg hS, if_neg (hmacPrefix_ne_empty _), stripHmac_prepend, hany, Bool.true_or]
  · intro sig hnc hsp
    unfold verify_teams_token
    by_cases hS : S = ""
    · rw [if_pos hS]
    · rw [if_neg hS]
      by_cases hsig : sig = ""
      · rw [if_pos hsig]
      · rw [if_neg hsig]
        have hany : (candidateSigs B S dec jv).any (fun c => c == stripHmac sig) = false := by
          refine List.any_eq_false.mpr ?_
          intro c hc
          simpa using fun h => hnc c hc h.symm
        rw [hany, hsp]
        rfl

/-- C1 witness: concrete acceptance of the standard signature for secret
    k over body "ab", and concrete rejection of the unrelated signature
    "!". -/
theorem C1_witness :
    verify_teams_token [97, 98] (b64encode (hmacSha256 (strBytes "k") [97, 98])) "k" true [] = true ∧
    verify_teams_token [97, 98] "!" "k" true [] = false := by
  constructor
  · exact ((C1_verifier_accepts_and_rejects [97, 98] "k" true []).1 (by decide)).1
  · refine (C1_verifier_accepts_and_rejects [97, 98] "k" true []).2 "!" ?_ ?_
    · intro c hc h
      have hbang : Char.ofNat 33 ∈ c.data := by
        rw [← h]
        decide
      rcases candidateSigs_chars [97, 98] "k" true [] c hc _ hbang with hin | hin | hin <;>
        revert hin <;> decide
    · decide

/-- C1 counterexample: a signature equal to no candidate of the
    combination loop (it starts with the character !, which no candidate
    contains) that verify_teams_token nevertheless accepts: b64decode
    skips the non-alphabet character, so the decoding equals the raw
    HMAC-SHA256 digest checked by the special-case section. -/
theorem C1_counterexample :
    (∀ c ∈ candidateSigs [97, 98] "s=" true [],
      "!" ++ b64encode (hmacSha256 (strBytes "s=") [97, 98]) ≠ c) ∧
    verify_teams_token [97, 98] ("!" ++ b64encode (hmacSha256 (strBytes "s=") [97, 98]))
      "s=" true [] = true := by
  constructor
  · intro c hc h
    have hbang : Char.ofNat 33 ∈ c.data := by
      rw [← h, String.data_append]
      refine List.mem_append.mpr (Or.inl ?_)
      decide
    rcases candidateSigs_chars [97, 98] "s=" true [] c hc _ hbang with hin | hin | hin <;>
      revert hin <;> decide
  · have hsig : ("!" ++ b64encode (hmacSha256 (strBytes "s=") [97, 98])) ≠ "" := by
      intro h
      have := congrArg String.data h
      rw [String.data_append] at this
      simp [List.append_eq_nil] at this
    have hsp : specialAccept [97, 98] "s="
        (stripHmac ("!" ++ b64encode (hmacSha256 (strBytes "s=") [97, 98]))) = true := by decide
    unfold verify_teams_token
    rw [if_neg (by decide), if_neg hsig, hsp, Bool.or_true]

/-! ## Date recognition (async_processor.extract_date_from_query and the
keyword classification of onedrive_search.search_files)

The concrete regular expressions of the sources are implemented directly:
a scan from the leftmost position, greedy one-or-two-digit groups with
their single backtracking step, and the word-boundary rule of the 8-digit
scan. Digits are the ASCII digits matched by the patterns; the Python
word-character class is modelled for the scripts that occur in this
repository (ASCII alphanumerics, underscore, kana, CJK ideographs). -/

/-- Word characters for the word-boundary assertion, covering the scripts
    used by this system. -/
def wordChar (c : Char) : Bool :=
  c.isAlphanum || c = Char.ofNat 95 ||
    (0x3040 ≤ c.toNat && c.toNat ≤ 0x30FF) || (0x4E00 ≤ c.toNat && c.toNat ≤ 0x9FFF)

/-- Greedy match of one or two digits followed by a character accepted by
    p: two digits are preferred, with a single backtracking step to one. -/
def digitsThenP (p : Char → Bool) (cs : List Char) : Option (List Char × List Char) :=
  match cs with
  | d1 :: d2 :: m :: rest =>
      if d1.isDigit && d2.isDigit && p m then some ([d1, d2], rest)
      else if d1.isDigit && p d2 then some ([d1], m :: rest)
      else none
  | [d1, d2] => if d1.isDigit && p d2 then some ([d1], []) else none
  | _ => none

/-- Trailing greedy one-or-two-digit group with nothing after it. -/
def digitsTail (cs : List Char) : Option (List Char) :=
  match cs with
  | d1 :: d2 :: _ =>
      if d1.isDigit && d2.isDigit then some [d1, d2]
      else if d1.isDigit then some [d1] else none
  | [d1] => if d1.isDigit then some [d1] else none
  | [] => none

/-- Anchored match of the pattern (4 digits) 年 (1-2 digits) 月
    (1-2 digits) 日 at the head of the character list. -/
def matchJapaneseAt (cs : List Char) : Option (String × String × String) :=
  match cs with
  | a :: b :: c :: d :: e :: rest =>
      if a.isDigit && b.isDigit && c.isDigit && d.isDigit && (e = '年') then
        match digitsThenP (fun x => x = '月') rest with
        | some (mm, rest2) =>
            match digitsThenP (fun x => x = '日') rest2 with
            | some (dd, _) => some (String.mk [a, b, c, d], String.mk mm, String.mk dd)
            | none => none
        | none => none
      else none
  | _ => none

/-- Leftmost search for the long-form localized date pattern. -/
def jscan : List Char → Option (String × String × String)
  | [] => none
  | c :: t =>
      match matchJapaneseAt (c :: t) with
      | some r => some r
      | none => jscan t

/-- re.search of the pattern (\d 4)年(\d 1,2)月(\d 1,2)日. -/
def searchJapanese (q : String) : Option (String × String × String) :=
  jscan q.data

/-- Separator class of the slash/hyphen date pattern. -/
def sepChar (c : Char) : Bool :=
  c = '/' || c = '-'

/-- Anchored match of the pattern (4 digits) separator (1-2 digits)
    separator (1-2 digits). -/
def matchSlashAt (cs : List Char) : Option (String × String × String) :=
  match cs with
  | a :: b :: c :: d :: s1 :: rest =>
      if a.isDigit && b.isDigit && c.isDigit && d.isDigit && sepChar s1 then
        match digitsThenP sepChar rest with
        | some (mm, rest2) =>
            match digitsTail rest2 with
            | some dd => some (String.mk [a, b, c, d], String.mk mm, String.mk dd)
            | none => none
        | none => none
      else none
  | _ => none

/-- Leftmost search for the slash/hyphen date pattern. -/
def sscan : List Char → Option (String × String × String)
  | [] => none
  | c :: t =>
      match matchSlashAt (c :: t) with
      | some r => some r
      | none => sscan t

/-- re.search of the slash/hyphen pattern: 4 digits, separator, 1-2 digits, separator, 1-2 digits. -/
def searchSlash (q : String) : Option (String × String × String) :=
  sscan q.data

/-- Match of eight digits with a closing word boundary at the head of the
    character list. -/
def eightAt (cs : List Char) : Option (String × String × String) :=
  match cs with
  | a :: b :: c :: d :: e :: f :: g :: h :: rest =>
      if (a.isDigit && b.isDigit && c.isDigit && d.isDigit &&
          e.isDigit && f.isDigit && g.isDigit && h.isDigit) &&
          (match rest with | [] => true | x :: _ => !wordChar x) then
        some (String.mk [a, b, c, d], String.mk [e, f], String.mk [g, h])
      else none
  | _ => none

/-- Leftmost scan for the pattern \b(\d 4)(\d 2)(\d 2)\b, carrying the
    previous character for the opening word boundary. -/
def nscan : Option Char → List Char → Option (String × String × String)
  | prev, cs =>
      match (if (match prev with | none => true | some p => !wordChar p) then eightAt cs else none) with
      | some r => some r
      | none =>
          match cs with
          | [] => none
          | x :: t => nscan (some x) t

/-- re.search of the pattern \b(\d 4)(\d 2)(\d 2)\b. -/
def searchNumeric8 (q : String) : Option (String × String × String) :=
  nscan none q.data

/-- Python str.zfill(2). -/
def zfill2 (s : String) : String :=
  String.mk (List.replicate (2 - s.data.length) '0' ++ s.data)

/-- Python str.split() without arguments: split on whitespace runs,
    discarding empty pieces. -/
def pySplit (q : String) : List String :=
  ((q.data.splitOnP (fun c => c.isWhitespace)).map String.mk).filter (fun w => w ≠ "")

/-- Characters accepted by str.isdigit() although the regex class \d
    does not match them and int() rejects them: within the repertoire
    modeled here, the Latin-1 superscript digits (Numeric_Type=Digit
    without being decimal digits). -/
def superDigit (c : Char) : Bool :=
  c = Char.ofNat 178 || c = Char.ofNat 179 || c = Char.ofNat 185

/-- Python str.isdigit() over the modeled repertoire: true on a non-empty
    string of decimal digits and superscript digits. -/
def pyIsDigit (s : String) : Bool :=
  (s ≠ "") && s.data.all (fun c => c.isDigit || superDigit c)

/-- Numeric value of a list of ASCII digits, as int() computes it. -/
def natOfDigits (l : List Char) : Nat :=
  l.foldl (fun acc c => acc * 10 + (c.toNat - 48)) 0

/-- The standalone-8-digit-token path of extract_date_from_query: the
    first whitespace-delimited token of exactly eight digits whose month
    lies in 1..12 and day in 1..31 is returned. int(month) and int(day)
    raise ValueError on a non-decimal digit character; the except clause
    continues with the next token. -/
def tokenPath : List String → Option (String × String × String × String)
  | [] => none
  | w :: ws =>
      if pyIsDigit w && w.data.length = 8 then
        let y := String.mk (w.data.take 4)
        let m := String.mk ((w.data.drop 4).take 2)
        let d := String.mk (w.data.drop 6)
        if m.data.all Char.isDigit && d.data.all Char.isDigit then
          let mi := natOfDigits m.data
          let di := natOfDigits d.data
          if (1 ≤ mi && mi ≤ 12) && (1 ≤ di && di ≤ 31) then some (y, m, d, "数値形式")
          else tokenPath ws
        else tokenPath ws
      else tokenPath ws

/-- Model of async_processor.extract_date_from_query: the four date
    styles are tried in order, the first match wins. -/
def extract_date_from_query (q : String) : Option (String × String × String × String) :=
  match searchJapanese q with
  | some (y, m, d) => some (y, zfill2 m, zfill2 d, "和暦形式")
  | none =>
  match searchSlash q with
  | some (y, m, d) => some (y, zfill2 m, zfill2 d, "スラッシュ区切り形式")
  | none =>
  match searchNumeric8 q with
  | some (y, m, d) => some (y, m, d, "数値形式")
  | none => tokenPath (pySplit q)

example : extract_date_from_query "2024年10月26日の日報 19990101" = some ("2024", "10", "26", "和暦形式") := by decide
example : extract_date_from_query "2024-1-5" = some ("2024", "01", "05", "スラッシュ区切り形式") := by decide
example : extract_date_from_query "20241026" = some ("2024", "10", "26", "数値形式") := by decide
example : extract_date_from_query "ab 20240230" = some ("2024", "02", "30", "数値形式") := by decide
example : extract_date_from_query "hello" = none := by decide
example : extract_date_from_query "x20241026" = none := by decide
example : extract_date_from_query "日報20241026" = none := by decide
example : extract_date_from_query "20241026です" = none := by decide
example : extract_date_from_query "1202410260" = none := by decide
example : extract_date_from_query "2024/10/26と2024年1月1日" = some ("2024", "01", "01", "和暦形式") := by decide

/-- C7: the four date styles are tried in fixed priority order with the
    first match winning: whenever the long-form localized pattern matches
    anywhere in the query, its groups are the extracted date, so a query
    holding both a long-form phrase and an unrelated 8-digit numeral
    yields the long-form phrase (style 1 beats style 3). -/
theorem C7_japanese_style_wins (q y m d : String)
    (h : searchJapanese q = some (y, m, d)) :
    extract_date_from_query q = some (y, zfill2 m, zfill2 d, "和暦形式") := by
  unfold extract_date_from_query
  rw [h]

/-- C7 witness: a query containing the long-form phrase 2024年10月26日 and
    the unrelated 8-digit numeral 19990101 extracts the long-form date. -/
theorem C7_witness :
    searchJapanese "2024年10月26日の日報 19990101" = some ("2024", "10", "26") ∧
    extract_date_from_query "2024年10月26日の日報 19990101" = some ("2024", "10", "26", "和暦形式") :=
  ⟨by decide, C7_japanese_style_wins "2024年10月26日の日報 19990101" "2024" "10" "26" (by decide)⟩

/-- C8: the standalone-token path alone validates month and day ranges;
    a whitespace-delimited 8-digit token with an out-of-range month or
    day is never reported by that path, and 20241026 yields the date
    (2024, 10, 26). The claim as frozen is amended: such a token can
    still be reported by the earlier style-3 regex scan, which performs
    no validation (see the counterexample). -/
theorem C8_eight_digit_validation :
    (∀ (ws : List String) (y m d f : String), tokenPath ws = some (y, m, d, f) →
      1 ≤ natOfDigits m.data ∧ natOfDigits m.data ≤ 12 ∧
      1 ≤ natOfDigits d.data ∧ natOfDigits d.data ≤ 31) ∧
    extract_date_from_query "20241026" = some ("2024", "10", "26", "数値形式") := by
  constructor
  · intro ws
    induction ws with
    | nil => intro y m d f h; simp [tokenPath] at h
    | cons w t ih =>
        intro y m d f h
        simp only [tokenPath] at h
        split at h
        · split at h
          · split at h
            · rename_i hguard
              simp only [Option.some.injEq, Prod.mk.injEq] at h
              obtain ⟨hy, hm, hd, hf⟩ := h
              subst hm
              subst hd
              simp only [Bool.and_eq_true, decide_eq_true_eq] at hguard
              exact ⟨hguard.1.1, hguard.1.2, hguard.2.1, hguard.2.2⟩
            · exact ih y m d f h
          · exact ih y m d f h
        · exact ih y m d f h
  · decide

/-- C8 witness: the token path applied to the single valid token
    19990101 reports month 01 and day 01, which satisfy the ranges. -/
theorem C8_witness :
    (1 ≤ natOfDigits "01".data ∧ natOfDigits "01".data ≤ 12 ∧
     1 ≤ natOfDigits "01".data ∧ natOfDigits "01".data ≤ 31) ∧
    extract_date_from_query "20241026" = some ("2024", "10", "26", "数値形式") :=
  ⟨C8_eight_digit_validation.1 ["19990101"] "1999" "01" "01" "数値形式" (by decide),
   C8_eight_digit_validation.2⟩

/-- C8 counterexample: the query 20241335 is a single whitespace-delimited
    token of eight digits whose month part 13 lies outside 1..12, yet
    extract_date_from_query reports it as a date, through the unvalidated
    style-3 regex scan. -/
theorem C8_counterexample :
    pySplit "20241335" = ["20241335"] ∧ 12 < natOfDigits "13".data ∧
    extract_date_from_query "20241335" = some ("2024", "13", "35", "数値形式") :=
  ⟨by decide, by decide, by decide⟩

/-! ## Keyword classification of onedrive_search.search_files -/

/-- The anchored numeric pattern of search_files: start anchor, eight
    digit groups, end anchor; the end anchor also matches just before one
    trailing newline, as the $ of the Python pattern does. -/
def anchored8 (k : String) : Option (String × String × String) :=
  match k.data with
  | [a, b, c, d, e, f, g, h] =>
      if a.isDigit && b.isDigit && c.isDigit && d.isDigit &&
         e.isDigit && f.isDigit && g.isDigit && h.isDigit then
        some (String.mk [a, b, c, d], String.mk [e, f], String.mk [g, h])
      else none
  | [a, b, c, d, e, f, g, h, nl] =>
      if (a.isDigit && b.isDigit && c.isDigit && d.isDigit &&
          e.isDigit && f.isDigit && g.isDigit && h.isDigit) && (nl = Char.ofNat 10) then
        some (String.mk [a, b, c, d], String.mk [e, f], String.mk [g, h])
      else none
  | _ => none

/-- The Japanese-script character class of search_files. -/
def jpChar (c : Char) : Bool :=
  (0x3041 ≤ c.toNat && c.toNat ≤ 0x3093) || (0x30A1 ≤ c.toNat && c.toNat ≤ 0x30F3) ||
    (0x4E00 ≤ c.toNat && c.toNat ≤ 0x9FA5)

/-- re.search of the Japanese-script class over a keyword. -/
def hasJpChar (s : String) : Bool :=
  s.data.any jpChar

/-- Leap years as datetime computes them. -/
def isLeap (y : Nat) : Bool :=
  y % 4 = 0 && (y % 100 ≠ 0 || y % 400 = 0)

/-- Days per month as datetime validates them. -/
def daysInMonth (y m : Nat) : Nat :=
  if m = 2 then (if isLeap y then 29 else 28)
  else if m = 4 || m = 6 || m = 9 || m = 11 then 30
  else 31

/-- Validity of datetime(year, month, day): year within MINYEAR..MAXYEAR,
    month 1..12, day within the month. -/
def validDatetime (y m d : Nat) : Bool :=
  (1 ≤ y && y ≤ 9999) && (1 ≤ m && m ≤ 12) && (1 ≤ d && d ≤ daysInMonth y m)

/-- Outcome of the per-keyword branch chain of search_files. -/
inductive KwClass where
  | japanese : String → String → String → KwClass
  | slash : String → String → String → KwClass
  | anchored : String → String → String → KwClass
  | tokenValid : String → String → String → String → KwClass
  | tokenInvalidJp : KwClass
  | tokenInvalidDrop : KwClass
  | plain : KwClass
deriving DecidableEq

/-- The branch chain applied to one keyword: the Japanese long form, the
    slash/hyphen form, the anchored 8-digit pattern, then the digit-token
    branch, whose try succeeds when int() accepts the three slices (all
    characters decimal digits) and the datetime calendar check passes;
    every ValueError (a non-decimal digit character or an invalid
    calendar date) lands in the except arm, which keeps the keyword as a
    plain term only when it contains a Japanese character and otherwise
    drops it. The final else keeps the keyword as a plain search term
    (both its arms do). -/
def classifyKeyword (k : String) : KwClass :=
  match searchJapanese k with
  | some (y, m, d) => .japanese y (zfill2 m) (zfill2 d)
  | none =>
  match searchSlash k with
  | some (y, m, d) => .slash y (zfill2 m) (zfill2 d)
  | none =>
  match anchored8 k with
  | some (y, m, d) => .anchored y m d
  | none =>
  if pyIsDigit k && k.data.length = 8 then
    let y := String.mk (k.data.take 4)
    let m := String.mk ((k.data.drop 4).take 2)
    let d := String.mk (k.data.drop 6)
    if k.data.all Char.isDigit &&
        validDatetime (natOfDigits y.data) (natOfDigits m.data) (natOfDigits d.data) then
      .tokenValid k y m d
    else if k.data.length > 2 && hasJpChar k then .tokenInvalidJp
    else .tokenInvalidDrop
  else .plain

/-- The three sibling date representations a date keyword expands to. -/
def dateVariants (p1 y m d : String) : List String :=
  [p1, y ++ "-" ++ m ++ "-" ++ d, y ++ "/" ++ m ++ "/" ++ d]

/-- Date keywords contributed by one classified keyword. -/
def kwDateKeys (k : String) : List String :=
  match classifyKeyword k with
  | .japanese y m d => dateVariants (y ++ m ++ d) y m d
  | .slash y m d => dateVariants (y ++ m ++ d) y m d
  | .anchored y m d => dateVariants (y ++ m ++ d) y m d
  | .tokenValid k0 y m d => dateVariants k0 y m d
  | _ => []

/-- Plain search terms contributed by one classified keyword. -/
def kwTerms (k : String) : List String :=
  match classifyKeyword k with
  | .tokenInvalidJp => [k]
  | .plain => [k]
  | _ => []

example : classifyKeyword "20241335" = .anchored "2024" "13" "35" := by decide
example : classifyKeyword "あいう" = .plain := by decide
example : classifyKeyword "2024年1月5日X" = .japanese "2024" "01" "05" := by decide
example : classifyKeyword "x2024-1-5y" = .slash "2024" "01" "05" := by decide
example : classifyKeyword "123456789" = .plain := by decide
example : kwDateKeys "20240230" = ["20240230", "2024-02-30", "2024/02/30"] := by decide

lemma matchJapaneseAt_digits (cs : List Char) (h : cs.all Char.isDigit = true) :
    matchJapaneseAt cs = none := by
  rcases cs with _ | ⟨a, cs⟩
  · rfl
  rcases cs with _ | ⟨b, cs⟩
  · rfl
  rcases cs with _ | ⟨c, cs⟩
  · rfl
  rcases cs with _ | ⟨d, cs⟩
  · rfl
  rcases cs with _ | ⟨e, cs⟩
  · rfl
  simp only [List.all_cons, Bool.and_eq_true] at h
  have he : e ≠ '年' := by
    intro hE
    rw [hE] at h
    exact absurd h.2.2.2.2.1 (by decide)
  simp [matchJapaneseAt, he]

lemma jscan_digits (cs : List Char) (h : cs.all Char.isDigit = true) : jscan cs = none := by
  induction cs with
  | nil => rfl
  | cons c t ih =>
      simp only [List.all_cons, Bool.and_eq_true] at h
      have ht := ih h.2
      have hm := matchJapaneseAt_digits (c :: t) (by simp [List.all_cons, h.1, h.2])
      simp only [jscan, hm]
      exact ht

lemma matchSlashAt_digits (cs : List Char) (h : cs.all Char.isDigit = true) :
    matchSlashAt cs = none := by
  rcases cs with _ | ⟨a, cs⟩
  · rfl
  rcases cs with _ | ⟨b, cs⟩
  · rfl
  rcases cs with _ | ⟨c, cs⟩
  · rfl
  rcases cs with _ | ⟨d, cs⟩
  · rfl
  rcases cs with _ | ⟨s1, cs⟩
  · rfl
  simp only [List.all_cons, Bool.and_eq_true] at h
  have hs : sepChar s1 = false := by
    have hd := h.2.2.2.2.1
    unfold sepChar
    have h1 : s1 ≠ '/' := by
      intro hE
      rw [hE] at hd
      exact absurd hd (by decide)
    have h2 : s1 ≠ '-' := by
      intro hE
      rw [hE] at hd
      exact absurd hd (by decide)
    simp [h1, h2]
  simp [matchSlashAt, hs]

lemma sscan_digits (cs : List Char) (h : cs.all Char.isDigit = true) : sscan cs = none := by
  induction cs with
  | nil => rfl
  | cons c t ih =>
      simp only [List.all_cons, Bool.and_eq_true] at h
      have ht := ih h.2
      have hm := matchSlashAt_digits (c :: t) (by simp [List.all_cons, h.1, h.2])
      simp only [sscan, hm]
      exact ht

lemma anchored8_of_digits (k : String) (hall : k.data.all Char.isDigit = true)
    (hlen : k.data.length = 8) :
    anchored8 k = some (String.mk (k.data.take 4), String.mk ((k.data.drop 4).take 2),
      String.mk (k.data.drop 6)) := by
  rcases hk : k.data with _ | ⟨a, l⟩
  · rw [hk] at hlen; simp at hlen
  rcases l with _ | ⟨b, l⟩
  · rw [hk] at hlen; simp at hlen
  rcases l with _ | ⟨c, l⟩
  · rw [hk] at hlen; simp at hlen
  rcases l with _ | ⟨d, l⟩
  · rw [hk] at hlen; simp at hlen
  rcases l with _ | ⟨e, l⟩
  · rw [hk] at hlen; simp at hlen
  rcases l with _ | ⟨f, l⟩
  · rw [hk] at hlen; simp at hlen
  rcases l with _ | ⟨g, l⟩
  · rw [hk] at hlen; simp at hlen
  rcases l with _ | ⟨h, l⟩
  · rw [hk] at hlen; simp at hlen
  rcases l with _ | ⟨x, l⟩
  · rw [hk] at hall
    simp only [List.all_cons, List.all_nil, Bool.and_eq_true, and_true] at hall
    unfold anchored8
    rw [hk]
    simp [hall.1, hall.2.1, hall.2.2.1, hall.2.2.2.1, hall.2.2.2.2.1,
      hall.2.2.2.2.2.1, hall.2.2.2.2.2.2.1, hall.2.2.2.2.2.2.2]
  · rw [hk] at hlen; simp at hlen

lemma pyIsDigit_no_jp (k : String) (h : pyIsDigit k = true) : hasJpChar k = false := by
  simp only [pyIsDigit, Bool.and_eq_true, List.all_eq_true] at h
  unfold hasJpChar
  rw [List.any_eq_false]
  intro c hc
  have hcd := h.2 c hc
  simp only [Bool.or_eq_true] at hcd
  rcases hcd with hd | hs
  · have h57 : c.toNat ≤ 57 := by
      simp only [Char.isDigit, Char.le_def, Bool.and_eq_true, decide_eq_true_eq] at hd
      exact hd.2
    simp only [jpChar, Bool.or_eq_true, Bool.and_eq_true, decide_eq_true_eq]
    omega
  · simp only [superDigit, Bool.or_eq_true, decide_eq_true_eq] at hs
    rcases hs with (h1 | h1) | h1 <;> subst h1 <;> decide

lemma classify_cases (k : String) :
    (∃ y m d, classifyKeyword k = .japanese y m d) ∨
    (∃ y m d, classifyKeyword k = .slash y m d) ∨
    (∃ y m d, classifyKeyword k = .anchored y m d) ∨
    classifyKeyword k = .tokenInvalidDrop ∨
    classifyKeyword k = .plain := by
  unfold classifyKeyword
  rcases hj : searchJapanese k with _ | ⟨y, m, d⟩
  · rcases hs : searchSlash k with _ | ⟨y, m, d⟩
    · rcases ha : anchored8 k with _ | ⟨y, m, d⟩
      · rcases hg : (pyIsDigit k && decide (k.data.length = 8)) with _ | _
        · exact Or.inr (Or.inr (Or.inr (Or.inr rfl)))
        · simp only [Bool.and_eq_true, decide_eq_true_eq] at hg
          have hnotall : k.data.all Char.isDigit = false := by
            rcases hall : k.data.all Char.isDigit with _ | _
            · rfl
            · exfalso
              rw [anchored8_of_digits k hall hg.2] at ha
              exact absurd ha (by simp)
          refine Or.inr (Or.inr (Or.inr (Or.inl ?_)))
          simp [hg.1, hg.2, hnotall, pyIsDigit_no_jp k hg.1]
      · exact Or.inr (Or.inr (Or.inl ⟨y, m, d, rfl⟩))
    · exact Or.inr (Or.inl ⟨y, zfill2 m, zfill2 d, rfl⟩)
  · exact Or.inl ⟨y, zfill2 m, zfill2 d, rfl⟩

/-- C10: every keyword of exactly eight decimal digits is caught by the
    anchored numeric-date pattern and expanded into the three sibling
    variants regardless of calendar validity, and the later branch that
    validates such tokens with a real calendar check never classifies any
    keyword as a calendar-valid date or keeps one through its
    Japanese-character sub-branch. The claim as frozen is amended: the
    calendar branch is not unreachable for every input, because
    str.isdigit also accepts non-decimal digit characters that none of
    the regexes match; such a keyword reaches the branch, int() raises
    ValueError, and the except arm silently drops the keyword (see the
    counterexample). -/
theorem C10_anchored_shadows_calendar_branch (k : String) :
    (k.data.all Char.isDigit = true → k.data.length = 8 →
      classifyKeyword k = KwClass.anchored (String.mk (k.data.take 4))
        (String.mk ((k.data.drop 4).take 2)) (String.mk (k.data.drop 6)) ∧
      kwDateKeys k = dateVariants
        (String.mk (k.data.take 4) ++ String.mk ((k.data.drop 4).take 2) ++ String.mk (k.data.drop 6))
        (String.mk (k.data.take 4)) (String.mk ((k.data.drop 4).take 2)) (String.mk (k.data.drop 6))) ∧
    (∀ k0 y m d, classifyKeyword k ≠ KwClass.tokenValid k0 y m d) ∧
    classifyKeyword k ≠ KwClass.tokenInvalidJp := by
  refine ⟨?_, ?_, ?_⟩
  · intro hall hlen
    have hcl : classifyKeyword k = KwClass.anchored (String.mk (k.data.take 4))
        (String.mk ((k.data.drop 4).take 2)) (String.mk (k.data.drop 6)) := by
      unfold classifyKeyword
      rw [show searchJapanese k = none from jscan_digits k.data hall]
      rw [show searchSlash k = none from sscan_digits k.data hall]
      rw [anchored8_of_digits k hall hlen]
    refine ⟨hcl, ?_⟩
    unfold kwDateKeys
    rw [hcl]
  · intro k0 y m d hEq
    rcases classify_cases k with ⟨a, b, c, h⟩ | ⟨a, b, c, h⟩ | ⟨a, b, c, h⟩ | h | h <;>
      rw [h] at hEq <;> exact absurd hEq (by simp)
  · intro hEq
    rcases classify_cases k with ⟨a, b, c, h⟩ | ⟨a, b, c, h⟩ | ⟨a, b, c, h⟩ | h | h <;>
      rw [h] at hEq <;> exact absurd hEq (by simp)

/-- C10 witness: the calendar-invalid eight-digit keyword 20240230 is
    expanded by the anchored pattern into its three variants. -/
theorem C10_witness :
    classifyKeyword "20240230" = KwClass.anchored "2024" "02" "30" ∧
    kwDateKeys "20240230" = ["20240230", "2024-02-30", "2024/02/30"] := by
  have h := (C10_anchored_shadows_calendar_branch "20240230").1 (by decide) (by decide)
  exact ⟨h.1, h.2⟩

/-- C10 counterexample: a length-8 keyword that satisfies str.isdigit but
    ends in the superscript two, which no date regex matches; it reaches
    the calendar-check branch, where int() raises ValueError and the
    except arm silently drops the keyword, so it contributes neither date
    keys nor search terms. -/
theorem C10_counterexample :
    pyIsDigit "2024102²" = true ∧ anchored8 "2024102²" = none ∧
    classifyKeyword "2024102²" = KwClass.tokenInvalidDrop ∧
    kwDateKeys "2024102²" = [] ∧ kwTerms "2024102²" = [] := by decide

/-! ## onedrive_search.search_files with its result cache

The directory walk is an input: the flat list of (directory, file name)
pairs in os.walk order, each carrying the outcome of its os.stat call
(none models the exception branch that records an empty timestamp and
size zero). Time is an explicit natural-number parameter; the cache is an
association list updated by shadowing, as dictionary assignment behaves
for lookups. -/

/-- One file met by the walk, with the outcome of os.stat. -/
structure WalkEntry where
  root : String
  name : String
  stat : Option (String × Nat)
deriving DecidableEq

/-- One search result, as the dictionaries the source builds. -/
structure FileHit where
  path : String
  name : String
  modified : String
  size : Nat
deriving DecidableEq

/-- os.path.join on the Windows host the source targets. -/
def pathJoin (root name : String) : String :=
  root ++ "\\" ++ name

/-- Python substring membership, the in operator on str. -/
def isSubstrOf (needle : List Char) : List Char → Bool
  | [] => needle.isPrefixOf []
  | c :: t => needle.isPrefixOf (c :: t) || isSubstrOf needle t

/-- needle in hay for strings. -/
def pyIn (needle hay : String) : Bool :=
  isSubstrOf needle.data hay.data

/-- ASCII lowering as str.lower() acts on the inputs here. -/
def pyLower (s : String) : String :=
  String.mk (s.data.map Char.toLower)

/-- Python str.endswith. -/
def pyEndsWith (s suffix : String) : Bool :=
  suffix.data.isSuffixOf s.data

/-- The match test of the walk loop: a date keyword matches inside the
    file name or the path, or an 8-digit date keyword matches through its
    year, month and day parts each appearing in the path; otherwise a
    plain term must appear inside the file name. -/
def entryMatches (dateKeys terms : List String) (name path : String) : Bool :=
  dateKeys.any (fun dk =>
    pyIn dk name || pyIn dk path ||
      (if dk.data.length = 8 && dk.data.all Char.isDigit then
        pyIn (String.mk (dk.data.take 4)) path &&
        pyIn (String.mk ((dk.data.drop 4).take 2)) path &&
        pyIn (String.mk (dk.data.drop 6)) path
      else false))
  || terms.any (fun t => pyIn t name)

/-- The extension filter: with a non-empty type list, the lowered file
    name must end with one of the lowered extensions. -/
def extOk (fileTypes : List String) (name : String) : Bool :=
  fileTypes.isEmpty || fileTypes.any (fun ext => pyEndsWith (pyLower name) (pyLower ext))

/-- The walk loop: collect matching entries in walk order, stopping once
    the running count reaches max_results (the count is tested after each
    append, so even max_results = 0 admits one hit). -/
def walkCollect (dateKeys terms fileTypes : List String) (maxResults : Nat) :
    List WalkEntry → Nat → List FileHit
  | [], _ => []
  | e :: rest, count =>
      if extOk fileTypes e.name && entryMatches dateKeys terms e.name (pathJoin e.root e.name) then
        let hit : FileHit :=
          match e.stat with
          | some (m, sz) => ⟨pathJoin e.root e.name, e.name, m, sz⟩
          | none => ⟨pathJoin e.root e.name, e.name, "", 0⟩
        if count + 1 ≥ maxResults then [hit]
        else hit :: walkCollect dateKeys terms fileTypes maxResults rest (count + 1)
      else walkCollect dateKeys terms fileTypes maxResults rest count

/-- Fold of the per-keyword classification over the keyword list,
    accumulating date keywords and plain search terms in order. -/
def collectKeywords (keywords : List String) : List String × List String :=
  keywords.foldl (fun acc k => (acc.1 ++ kwDateKeys k, acc.2 ++ kwTerms k)) ([], [])

/-- The search terms actually used: plain terms, extended by the date
    keywords when any exist, falling back to the first two original
    keywords when nothing remains (the further fallback for a string
    argument is dead code there, the argument has been split to a list). -/
def searchTerms (keywords : List String) : List String :=
  let (dateKeys, terms0) := collectKeywords keywords
  let terms1 := if dateKeys.isEmpty then terms0 else terms0 ++ dateKeys
  if terms1.isEmpty && !keywords.isEmpty then keywords.take 2 else terms1

/-- Python str() of a list of strings, as the cache key serializes it. -/
def pyStrList (l : List String) : String :=
  let q := (Char.ofNat 39).toString
  "[" ++ String.intercalate ", " (l.map (fun s => q ++ s ++ q)) ++ "]"

/-- The composite cache key of search_files. -/
def cacheKey (keywords fileTypes : List String) (maxResults : Nat) : String :=
  pyStrList keywords ++ "_" ++ pyStrList fileTypes ++ "_" ++ toString maxResults

/-- A cache slot: the stored results and their write time. -/
structure CacheEntry where
  results : List FileHit
  timestamp : Nat
deriving DecidableEq

/-- The cache is an association list; assignment shadows. -/
def lookupCache (st : List (String × CacheEntry)) (key : String) : Option CacheEntry :=
  match st.find? (fun p => p.1 == key) with
  | some p => some p.2
  | none => none

/-- Dictionary assignment. -/
def storeCache (st : List (String × CacheEntry)) (key : String) (e : CacheEntry) :
    List (String × CacheEntry) :=
  (key, e) :: st

/-- The walk branch of search_files: classify keywords, walk, store. -/
def doSearch (walk : List WalkEntry) (keywords fileTypes : List String) (maxResults : Nat)
    (st : List (String × CacheEntry)) (now : Nat) :
    List FileHit × List (String × CacheEntry) × Bool :=
  let dateKeys := (collectKeywords keywords).1
  let results := walkCollect dateKeys (searchTerms keywords) fileTypes maxResults walk 0
  (results, storeCache st (cacheKey keywords fileTypes maxResults) ⟨results, now⟩, true)

/-- Model of OneDriveSearch.search_files: a cached entry younger than the
    300-second expiry is returned without walking; otherwise the walk
    runs and its full result list is stored under the composite key. The
    third component records whether the walk was executed. -/
def search_files (walk : List WalkEntry) (keywords fileTypes : List String) (maxResults : Nat)
    (useCache : Bool) (st : List (String × CacheEntry)) (now : Nat) :
    List FileHit × List (String × CacheEntry) × Bool :=
  if useCache then
    match lookupCache st (cacheKey keywords fileTypes maxResults) with
    | some e =>
        if now - e.timestamp < 300 then (e.results, st, false)
        else doSearch walk keywords fileTypes maxResults st now
    | none => doSearch walk keywords fileTypes maxResults st now
  else doSearch walk keywords fileTypes maxResults st now

example :
    (search_files [⟨"R", "abcdef.txt", some ("2024-01-01 00:00:00", 5)⟩] ["abcdef"] [] 5 true [] 0).1 =
      [⟨"R\\abcdef.txt", "abcdef.txt", "2024-01-01 00:00:00", 5⟩] := by decide
example :
    (search_files [⟨"R", "a.txt", some ("t", 1)⟩, ⟨"R", "ab.txt", some ("t", 1)⟩]
      ["a"] [] 1 true [] 0).1.length = 1 := by decide
example :
    (search_files [⟨"R", "x.pdf", some ("t", 1)⟩] ["x"] [".PDF"] 5 true [] 0).1.length = 1 := by decide
example :
    (search_files [⟨"R\\20241026", "report.txt", some ("t", 1)⟩] ["2024年10月26日"] [] 5 true [] 0).1.length = 1 := by decide

lemma search_files_walked (walk : List WalkEntry) (kws fts : List String) (mr : Nat)
    (uc : Bool) (st : List (String × CacheEntry)) (t : Nat)
    (h : (search_files walk kws fts mr uc st t).2.2 = true) :
    search_files walk kws fts mr uc st t = doSearch walk kws fts mr st t := by
  unfold search_files at h ⊢
  cases uc with
  | false => rfl
  | true =>
      cases hl : lookupCache st (cacheKey kws fts mr) with
      | none => simp [hl]
      | some e =>
          simp only [hl] at h ⊢
          by_cases hfresh : t - e.timestamp < 300
          · rw [if_pos hfresh] at h
            exact absurd h (by simp)
          · rw [if_neg hfresh]
            simp

/-- C4: a second call with identical arguments made less than 300 seconds
    after a first call that executed the walk returns the first call's
    result list from the cache, with the state unchanged and no walk; and
    whenever the cached entry under the key is 300 or more seconds old
    (or absent), the walk is re-executed. The claim as frozen is amended:
    when the first call is itself served from an older cache entry, the
    expiry is measured from that entry's write time, so the second call
    can re-walk and return different results (see the counterexample). -/
theorem C4_cache_behaviour (walk : List WalkEntry) (kws fts : List String) (mr : Nat)
    (st : List (String × CacheEntry)) (t1 t2 : Nat)
    (hw : (search_files walk kws fts mr true st t1).2.2 = true)
    (hfresh : t2 - t1 < 300) :
    (search_files walk kws fts mr true ((search_files walk kws fts mr true st t1).2.1) t2
      = ((search_files walk kws fts mr true st t1).1,
         (search_files walk kws fts mr true st t1).2.1, false)) ∧
    (∀ (st2 : List (String × CacheEntry)) (now : Nat),
      ((lookupCache st2 (cacheKey kws fts mr)).all (fun e => 300 ≤ now - e.timestamp)) = true →
      (search_files walk kws fts mr true st2 now).2.2 = true) := by
  constructor
  · rw [search_files_walked walk kws fts mr true st t1 hw]
    unfold doSearch
    unfold search_files
    simp only [storeCache, lookupCache, List.find?]
    rw [show (cacheKey kws fts mr == cacheKey kws fts mr) = true from by simp]
    simp [hfresh]
  · intro st2 now hall
    unfold search_files
    cases hl : lookupCache st2 (cacheKey kws fts mr) with
    | none => simp [doSearch]
    | some e =>
        rw [hl] at hall
        simp only [Option.all] at hall
        have : ¬(now - e.timestamp < 300) := by
          simp only [decide_eq_true_eq] at hall
          omega
        simp only [hl]
        rw [if_neg this]
        simp [doSearch]

/-- C4 witness: after a first call on an empty cache at time 0, the same
    call at time 10 is served from the cache unchanged; and with a cached
    entry written at time 0, a call at time 400 re-executes the walk. -/
theorem C4_witness :
    (search_files [⟨"R", "k.txt", some ("t", 1)⟩] ["k"] [] 5 true
        ((search_files [⟨"R", "k.txt", some ("t", 1)⟩] ["k"] [] 5 true [] 0).2.1) 10
      = ((search_files [⟨"R", "k.txt", some ("t", 1)⟩] ["k"] [] 5 true [] 0).1,
         (search_files [⟨"R", "k.txt", some ("t", 1)⟩] ["k"] [] 5 true [] 0).2.1, false)) ∧
    (search_files [⟨"R", "k.txt", some ("t", 1)⟩] ["k"] [] 5 true
      [(cacheKey ["k"] [] 5, ⟨[], 0⟩)] 400).2.2 = true := by
  have h := C4_cache_behaviour [⟨"R", "k.txt", some ("t", 1)⟩] ["k"] [] 5 [] 0 10
    (by decide) (by decide)
  exact ⟨h.1, h.2 [(cacheKey ["k"] [] 5, ⟨[], 0⟩)] 400 (by decide)⟩

/-- C4 counterexample: with an entry cached at time 0, a first call at
    time 299 is a cache hit returning the stored empty list; a second
    identical call one second later, at time 300, re-executes the walk
    and returns a different, non-empty result list. -/
theorem C4_counterexample :
    search_files [⟨"R", "k.txt", some ("t", 1)⟩] ["k"] [] 5 true
        [(cacheKey ["k"] [] 5, ⟨[], 0⟩)] 299
      = ([], [(cacheKey ["k"] [] 5, ⟨[], 0⟩)], false) ∧
    (search_files [⟨"R", "k.txt", some ("t", 1)⟩] ["k"] [] 5 true
        [(cacheKey ["k"] [] 5, ⟨[], 0⟩)] 300).2.2 = true ∧
    (search_files [⟨"R", "k.txt", some ("t", 1)⟩] ["k"] [] 5 true
        [(cacheKey ["k"] [] 5, ⟨[], 0⟩)] 300).1 ≠ [] :=
  ⟨by decide, by decide, by decide⟩

/-! ## onedrive_search.get_relevant_content

The extractor outcome for each file is an input function from paths to
the string read_file_content produces for them. -/

/-- The punctuation set stripped from query words. -/
def stripChars : List Char :=
  [',', '.', ';', ':', '!', '?', '(', ')', '[', ']',
   Char.ofNat 123, Char.ofNat 125, Char.ofNat 34, Char.ofNat 39]

/-- Python word.strip(punctuation). -/
def pyStrip (s : String) : String :=
  String.mk (((s.data.dropWhile (fun c => c ∈ stripChars)).reverse.dropWhile
    (fun c => c ∈ stripChars)).reverse)

/-- The stop-word inventory of get_relevant_content. -/
def stopWords : List String :=
  ["について", "とは", "の", "を", "に", "は", "で", "が", "と", "から", "へ", "より",
   "内容", "知りたい", "あったのか", "何", "教えて", "どのような", "どんな", "ありました",
   "the", "a", "an", "and", "or", "of", "to", "in", "for", "on", "by"]

/-- The date string extracted by get_relevant_content: long form first,
    then slash form (both zero padded), then the bounded 8-digit scan. -/
def grcDate (q : String) : Option String :=
  match searchJapanese q with
  | some (y, m, d) => some (y ++ "年" ++ zfill2 m ++ "月" ++ zfill2 d ++ "日")
  | none =>
  match searchSlash q with
  | some (y, m, d) => some (y ++ "年" ++ zfill2 m ++ "月" ++ zfill2 d ++ "日")
  | none =>
  match searchNumeric8 q with
  | some (y, m, d) => some (y ++ "年" ++ m ++ "月" ++ d ++ "日")
  | none => none

/-- The keyword set of get_relevant_content: the date string first, then
    every stripped query word of length above one that is no stop word
    and does not contain the date string, with the 日報 backup keyword
    appended when fewer than two keywords were found and neither the
    query nor a keyword mentions it. -/
def grcKeywords (q : String) : List String :=
  let ds := grcDate q
  let base := match ds with | some d => [d] | none => []
  let kws := base ++ (pySplit q).foldl (fun acc w =>
    let cw := pyStrip w
    if cw ≠ "" && cw.length > 1 && !(stopWords.contains (pyLower cw)) then
      match ds with
      | some d => if !(pyIn d cw) then acc ++ [cw] else acc
      | none => acc ++ [cw]
    else acc) []
  if kws.length < 2 then
    if !(pyIn "日報" (pyLower q)) && !(kws.any (fun k => pyIn "日報" k)) then kws ++ ["日報"]
    else kws
  else kws

/-- The opening line of the assembled content. -/
def headerStr (n : Nat) : String :=
  "--- " ++ toString n ++ "件の関連ファイルが見つかりました ---\n\n"

/-- One per-file block: numbered header, modification time, and a preview
    of at most 2000 characters of the extracted content. -/
def fileBlock (contentOf : String → String) (i : Nat) (r : FileHit) : String :=
  "=== ファイル " ++ toString (i + 1) ++ ": " ++ r.name ++ " ===\n" ++
  "更新日時: " ++ r.modified ++ "\n" ++ String.mk ((contentOf r.path).data.take 2000) ++ "\n\n"

/-- The omission line appended when the budget is exhausted. -/
def omissionLine (n : Nat) : String :=
  "\n（残り" ++ toString n ++ "件のファイルは文字数制限のため表示されません）"

/-- The accumulation loop of get_relevant_content: blocks are appended
    while the budget holds; a block that would exceed it is cut to the
    remaining budget minus a 100-character reserve and marked with an
    ellipsis (and the loop continues); once the reserve is gone, the
    omission line with the count of remaining files is appended and the
    loop stops. Besides the text, the result carries whether a block was
    cut and the count announced by an omission line, if any. -/
def assembleGo (contentOf : String → String) (maxChars nResults : Nat) :
    List FileHit → Nat → Nat → String × Bool × Option Nat
  | [], _, _ => ("", false, none)
  | r :: rest, i, total =>
      let fc := fileBlock contentOf i r
      if total + fc.length > maxChars then
        let remaining : Int := (maxChars : Int) - (total : Int) - 100
        if 0 < remaining then
          let fc2 := String.mk (fc.data.take remaining.toNat) ++ "...\n"
          let next := assembleGo contentOf maxChars nResults rest (i + 1) (total + fc2.length)
          (fc2 ++ next.1, true, next.2.2)
        else
          (omissionLine (nResults - i), false, some (nResults - i))
      else
        let next := assembleGo contentOf maxChars nResults rest (i + 1) (total + fc.length)
        (fc ++ next.1, next.2.1, next.2.2)

/-- The assembled relevant content for a non-empty result list. -/
def relevantContentAssembly (contentOf : String → String) (maxChars : Nat)
    (results : List FileHit) : String :=
  headerStr results.length ++
    (assembleGo contentOf maxChars results.length results 0 (headerStr results.length).length).1

/-- Model of OneDriveSearch.get_relevant_content: extract a date and the
    keyword set, search, and either return a fixed guidance or not-found
    message or assemble the bounded content. -/
def get_relevant_content (walk : List WalkEntry) (fileTypes : List String)
    (contentOf : String → String) (st : List (String × CacheEntry)) (now : Nat)
    (q : String) (maxFiles maxChars : Nat) : String :=
  let kws := grcKeywords q
  if kws.isEmpty then
    "検索キーワードが見つかりませんでした。具体的な日付や単語で検索してください。"
  else
    let results := (search_files walk kws fileTypes maxFiles true st now).1
    if results.isEmpty then
      match grcDate q with
      | some ds => ds ++ "の日報は見つかりませんでした。日付の表記が正しいか確認してください。"
      | none =>
          "キーワード " ++ (Char.ofNat 39).toString ++ String.intercalate ", " kws ++
            (Char.ofNat 39).toString ++ " に関連するファイルは見つかりませんでした。"
    else relevantContentAssembly contentOf maxChars results

example : grcKeywords "abcdef" = ["abcdef", "日報"] := by decide
example : grcKeywords "の" = ["日報"] := by decide
example :
    get_relevant_content [⟨"R", "abcdef.txt", some ("t", 1)⟩] [] (fun _ => "xyz") [] 0
      "abcdef" 5 10 =
    "--- 1件の関連ファイルが見つかりました ---\n\n\n（残り1件のファイルは文字数制限のため表示されません）" := by decide
example :
    get_relevant_content [⟨"R", "abcdef.txt", some ("t", 1)⟩] [] (fun _ => "xyz") [] 0
      "abcdef" 5 8000 =
    "--- 1件の関連ファイルが見つかりました ---\n\n=== ファイル 1: abcdef.txt ===\n更新日時: t\nxyz\n\n" := by decide
example :
    get_relevant_content [⟨"R", "abcdef.txt", some ("t", 1)⟩] []
      (fun _ => String.mk (List.replicate 500 'A')) [] 0 "abcdef" 5 150 =
    "--- 1件の関連ファイルが見つかりました ---\n\n=== ファイル 1: abcdef.txt ...\n" := by decide
example :
    get_relevant_content [⟨"R", "a1x.txt", some ("t", 1)⟩, ⟨"R", "a1y.txt", some ("t", 1)⟩] []
      (fun _ => String.mk (List.replicate 200 'B')) [] 0 "a1x a1y" 5 180 =
    "--- 2件の関連ファイルが見つかりました ---\n\n=== ファイル 1: a1x.txt ===\n更新日時: t\n" ++
      String.mk (List.replicate 21 'B') ++ "...\n\n（残り1件のファイルは文字数制限のため表示されません）" := by decide
example :
    get_relevant_content [] [] (fun _ => "") [] 0 "2024年10月26日の日報" 5 8000 =
    "2024年10月26日の日報は見つかりませんでした。日付の表記が正しいか確認してください。" := by decide

/-! ### Support lemmas for the content budget -/

lemma length_mk (l : List Char) : (String.mk l).length = l.length := rfl

lemma isSubstrOf_of_prefix {n h : List Char} (hp : n.isPrefixOf h = true) :
    isSubstrOf n h = true := by
  cases h with
  | nil => simpa [isSubstrOf] using hp
  | cons c t => simp [isSubstrOf, hp]

lemma isSubstrOf_append_left (n pre h : List Char) (hs : isSubstrOf n h = true) :
    isSubstrOf n (pre ++ h) = true := by
  induction pre with
  | nil => simpa using hs
  | cons c t ih => simp [isSubstrOf, ih]

/-- Length of the omission line carried by the assembly outcome. -/
def omLenOf : Option Nat → Nat
  | some r => (omissionLine r).length
  | none => 0

lemma assembleGo_length (contentOf : String → String) (maxChars nResults : Nat) :
    ∀ (rs : List FileHit) (i total : Nat),
      total + (assembleGo contentOf maxChars nResults rs i total).1.length ≤
        max maxChars total + omLenOf (assembleGo contentOf maxChars nResults rs i total).2.2 := by
  intro rs
  induction rs with
  | nil =>
      intro i total
      simp [assembleGo, omLenOf]
  | cons r rest ih =>
      intro i total
      by_cases hgt : total + (fileBlock contentOf i r).length > maxChars
      · by_cases hrem : (0 : Int) < (maxChars : Int) - (total : Int) - 100
        · have hfc2 : (String.mk ((fileBlock contentOf i r).data.take
              (((maxChars : Int) - (total : Int) - 100).toNat)) ++ "...\n").length =
              min (((maxChars : Int) - (total : Int) - 100).toNat)
                (fileBlock contentOf i r).data.length + 4 := by
            rw [String.length_append, length_mk, List.length_take]
            rfl
          have key : total + (String.mk ((fileBlock contentOf i r).data.take
              (((maxChars : Int) - (total : Int) - 100).toNat)) ++ "...\n").length ≤ maxChars := by
            rw [hfc2]
            omega
          simp only [assembleGo]
          rw [if_pos hgt, if_pos hrem]
          have ihx := ih (i + 1) (total + (String.mk ((fileBlock contentOf i r).data.take
            (((maxChars : Int) - (total : Int) - 100).toNat)) ++ "...\n").length)
          rw [String.length_append]
          dsimp only
          have hlmax : maxChars ≤ max maxChars total := le_max_left _ _
          omega
        · simp only [assembleGo]
          rw [if_pos hgt, if_neg hrem]
          simp only [omLenOf]
          have : total ≤ max maxChars total := le_max_right _ _
          omega
      · simp only [assembleGo]
        rw [if_neg hgt]
        have ihx := ih (i + 1) (total + (fileBlock contentOf i r).length)
        rw [String.length_append]
        dsimp only
        have hlmax : maxChars ≤ max maxChars total := le_max_left _ _
        omega

lemma assembleGo_markers (contentOf : String → String) (maxChars nResults : Nat) :
    ∀ (rs : List FileHit) (i total : Nat),
      ((assembleGo contentOf maxChars nResults rs i total).2.1 = true →
        isSubstrOf "...".data (assembleGo contentOf maxChars nResults rs i total).1.data = true) ∧
      (∀ rr, (assembleGo contentOf maxChars nResults rs i total).2.2 = some rr →
        isSubstrOf (omissionLine rr).data
            (assembleGo contentOf maxChars nResults rs i total).1.data = true ∧
          (i + rs.length = nResults → 1 ≤ rr ∧ rr ≤ nResults)) := by
  intro rs
  induction rs with
  | nil =>
      intro i total
      constructor
      · intro h
        simp [assembleGo] at h
      · intro rr h
        simp [assembleGo] at h
  | cons r rest ih =>
      intro i total
      by_cases hgt : total + (fileBlock contentOf i r).length > maxChars
      · by_cases hrem : (0 : Int) < (maxChars : Int) - (total : Int) - 100
        · simp only [assembleGo]
          rw [if_pos hgt, if_pos hrem]
          dsimp only
          constructor
          · intro _
            rw [String.data_append, String.data_append, List.append_assoc]
            apply isSubstrOf_append_left
            apply isSubstrOf_of_prefix
            rw [show "...\n".data = ['.', '.', '.', '\n'] from rfl]
            simp [List.isPrefixOf]
          · intro rr h
            obtain ⟨hsub, hbound⟩ := (ih (i + 1) (total + (String.mk
              ((fileBlock contentOf i r).data.take
                (((maxChars : Int) - (total : Int) - 100).toNat)) ++ "...\n").length)).2 rr h
            constructor
            · rw [String.data_append]
              exact isSubstrOf_append_left _ _ _ hsub
            · intro hinv
              apply hbound
              simp only [List.length_cons] at hinv
              omega
        · simp only [assembleGo]
          rw [if_pos hgt, if_neg hrem]
          dsimp only
          constructor
          · intro h
            exact absurd h (by simp)
          · intro rr h
            have hrr := Option.some.inj h
            constructor
            · rw [← hrr]
              exact isSubstrOf_of_prefix (List.isPrefixOf_iff_prefix.mpr (List.prefix_refl _))
            · intro hinv
              simp only [List.length_cons] at hinv
              omega
      · simp only [assembleGo]
        rw [if_neg hgt]
        dsimp only
        have ihp := ih (i + 1) (total + (fileBlock contentOf i r).length)
        constructor
        · intro h
          rw [String.data_append]
          exact isSubstrOf_append_left _ _ _ (ihp.1 h)
        · intro rr h
          obtain ⟨hsub, hbound⟩ := ihp.2 rr h
          constructor
          · rw [String.data_append]
            exact isSubstrOf_append_left _ _ _ hsub
          · intro hinv
            apply hbound
            simp only [List.length_cons] at hinv
            omega

/-- C2: the claim as frozen is amended. Whenever keywords exist and the
    search returns results, the assembled output exceeds max_chars (or
    the header line, when max_chars is smaller) by at most the length of
    the final omission line; a cut block always carries the ellipsis
    marker and an omission always appends its count line, whose count is
    between one and the number of results. The output is not bounded by
    max_chars itself (see the counterexample): the omission line is
    appended without a budget check, and the fixed guidance and
    not-found messages ignore max_chars entirely. -/
theorem C2_content_budget (walk : List WalkEntry) (fileTypes : List String)
    (contentOf : String → String) (st : List (String × CacheEntry)) (now : Nat)
    (q : String) (maxFiles maxChars : Nat)
    (hkw : (grcKeywords q).isEmpty = false)
    (hres : ((search_files walk (grcKeywords q) fileTypes maxFiles true st now).1).isEmpty = false) :
    (get_relevant_content walk fileTypes contentOf st now q maxFiles maxChars).length ≤
      max maxChars (headerStr
          (search_files walk (grcKeywords q) fileTypes maxFiles true st now).1.length).length +
        omLenOf (assembleGo contentOf maxChars
          (search_files walk (grcKeywords q) fileTypes maxFiles true st now).1.length
          (search_files walk (grcKeywords q) fileTypes maxFiles true st now).1 0
          (headerStr
            (search_files walk (grcKeywords q) fileTypes maxFiles true st now).1.length).length).2.2 ∧
    ((assembleGo contentOf maxChars
        (search_files walk (grcKeywords q) fileTypes maxFiles true st now).1.length
        (search_files walk (grcKeywords q) fileTypes maxFiles true st now).1 0
        (headerStr
          (search_files walk (grcKeywords q) fileTypes maxFiles true st now).1.length).length).2.1 = true →
      isSubstrOf "...".data
        (get_relevant_content walk fileTypes contentOf st now q maxFiles maxChars).data = true) ∧
    (∀ rr, (assembleGo contentOf maxChars
        (search_files walk (grcKeywords q) fileTypes maxFiles true st now).1.length
        (search_files walk (grcKeywords q) fileTypes maxFiles true st now).1 0
        (headerStr
          (search_files walk (grcKeywords q) fileTypes maxFiles true st now).1.length).length).2.2 = some rr →
      isSubstrOf (omissionLine rr).data
          (get_relevant_content walk fileTypes contentOf st now q maxFiles maxChars).data = true ∧
        1 ≤ rr ∧
        rr ≤ (search_files walk (grcKeywords q) fileTypes maxFiles true st now).1.length) := by
  have hout : get_relevant_content walk fileTypes contentOf st now q maxFiles maxChars =
      relevantContentAssembly contentOf maxChars
        (search_files walk (grcKeywords q) fileTypes maxFiles true st now).1 := by
    simp [get_relevant_content, hkw, hres]
  rw [hout]
  unfold relevantContentAssembly
  refine ⟨?_, ?_, ?_⟩
  · rw [String.length_append]
    exact assembleGo_length contentOf maxChars _ _ 0 _
  · intro h
    rw [String.data_append]
    exact isSubstrOf_append_left _ _ _
      ((assembleGo_markers contentOf maxChars _ _ 0 _).1 h)
  · intro rr h
    obtain ⟨hsub, hbound⟩ := (assembleGo_markers contentOf maxChars _ _ 0 _).2 rr h
    refine ⟨?_, hbound (by simp)⟩
    rw [String.data_append]
    exact isSubstrOf_append_left _ _ _ hsub

/-- C2 witness: the two-file search with a 180-character budget cuts the
    first block and omits the second file; the theorem bounds the output
    and guarantees both markers. -/
theorem C2_witness :
    (get_relevant_content [⟨"R", "a1x.txt", some ("t", 1)⟩, ⟨"R", "a1y.txt", some ("t", 1)⟩] []
        (fun _ => String.mk (List.replicate 200 'B')) [] 0 "a1x a1y" 5 180).length ≤
      max 180 (headerStr
          (search_files [⟨"R", "a1x.txt", some ("t", 1)⟩, ⟨"R", "a1y.txt", some ("t", 1)⟩]
            (grcKeywords "a1x a1y") [] 5 true [] 0).1.length).length +
        omLenOf (assembleGo (fun _ => String.mk (List.replicate 200 'B')) 180
          (search_files [⟨"R", "a1x.txt", some ("t", 1)⟩, ⟨"R", "a1y.txt", some ("t", 1)⟩]
            (grcKeywords "a1x a1y") [] 5 true [] 0).1.length
          (search_files [⟨"R", "a1x.txt", some ("t", 1)⟩, ⟨"R", "a1y.txt", some ("t", 1)⟩]
            (grcKeywords "a1x a1y") [] 5 true [] 0).1 0
          (headerStr
            (search_files [⟨"R", "a1x.txt", some ("t", 1)⟩, ⟨"R", "a1y.txt", some ("t", 1)⟩]
              (grcKeywords "a1x a1y") [] 5 true [] 0).1.length).length).2.2 ∧
    ((assembleGo (fun _ => String.mk (List.replicate 200 'B')) 180
        (search_files [⟨"R", "a1x.txt", some ("t", 1)⟩, ⟨"R", "a1y.txt", some ("t", 1)⟩]
          (grcKeywords "a1x a1y") [] 5 true [] 0).1.length
        (search_files [⟨"R", "a1x.txt", some ("t", 1)⟩, ⟨"R", "a1y.txt", some ("t", 1)⟩]
          (grcKeywords "a1x a1y") [] 5 true [] 0).1 0
        (headerStr
          (search_files [⟨"R", "a1x.txt", some ("t", 1)⟩, ⟨"R", "a1y.txt", some ("t", 1)⟩]
            (grcKeywords "a1x a1y") [] 5 true [] 0).1.length).length).2.1 = true →
      isSubstrOf "...".data
        (get_relevant_content [⟨"R", "a1x.txt", some ("t", 1)⟩, ⟨"R", "a1y.txt", some ("t", 1)⟩] []
          (fun _ => String.mk (List.replicate 200 'B')) [] 0 "a1x a1y" 5 180).data = true) ∧
    (∀ rr, (assembleGo (fun _ => String.mk (List.replicate 200 'B')) 180
        (search_files [⟨"R", "a1x.txt", some ("t", 1)⟩, ⟨"R", "a1y.txt", some ("t", 1)⟩]
          (grcKeywords "a1x a1y") [] 5 true [] 0).1.length
        (search_files [⟨"R", "a1x.txt", some ("t", 1)⟩, ⟨"R", "a1y.txt", some ("t", 1)⟩]
          (grcKeywords "a1x a1y") [] 5 true [] 0).1 0
        (headerStr
          (search_files [⟨"R", "a1x.txt", some ("t", 1)⟩, ⟨"R", "a1y.txt", some ("t", 1)⟩]
            (grcKeywords "a1x a1y") [] 5 true [] 0).1.length).length).2.2 = some rr →
      isSubstrOf (omissionLine rr).data
          (get_relevant_content [⟨"R", "a1x.txt", some ("t", 1)⟩, ⟨"R", "a1y.txt", some ("t", 1)⟩] []
            (fun _ => String.mk (List.replicate 200 'B')) [] 0 "a1x a1y" 5 180).data = true ∧
        1 ≤ rr ∧
        rr ≤ (search_files [⟨"R", "a1x.txt", some ("t", 1)⟩, ⟨"R", "a1y.txt", some ("t", 1)⟩]
          (grcKeywords "a1x a1y") [] 5 true [] 0).1.length) :=
  C2_content_budget [⟨"R", "a1x.txt", some ("t", 1)⟩, ⟨"R", "a1y.txt", some ("t", 1)⟩] []
    (fun _ => String.mk (List.replicate 200 'B')) [] 0 "a1x a1y" 5 180 (by decide) (by decide)

/-- C2 counterexample: with one matching file and max_chars = 10, the
    returned string is 55 characters long, exceeding max_chars: the
    header and omission line are emitted without a budget check. -/
theorem C2_counterexample :
    10 < (get_relevant_content [⟨"R", "abcdef.txt", some ("t", 1)⟩] [] (fun _ => "xyz") [] 0
      "abcdef" 5 10).length := by decide

/-! ## teams_webhook.TeamsWebhook.send_ollama_response: the delivery chain

Each HTTP attempt is an input: either a response with a status code and
body text, or a raised exception (timeout, connection error) with its
message. The model returns the result dictionary together with the
number of POST attempts executed. -/

/-- Outcome of one requests.post call. -/
inductive HttpOutcome where
  | response : Nat → String → HttpOutcome
  | failure : String → HttpOutcome
deriving DecidableEq

/-- The result dictionary of send_ollama_response: success carries the
    status code and the format name, error the last status code (absent
    after an exception) and message. -/
inductive DeliveryResult where
  | success : Nat → String → DeliveryResult
  | error : Option Nat → String → DeliveryResult
deriving DecidableEq

/-- 200 <= status < 300. -/
def is2xx (c : Nat) : Bool :=
  decide (200 ≤ c) && decide (c < 300)

/-- An attempt that did not produce a 2xx response. -/
def attemptFails : HttpOutcome → Bool
  | .response c _ => !is2xx c
  | .failure _ => true

/-- Model of send_ollama_response, given the outcomes of the up to three
    POST attempts in order (root-level attachments card, legacy
    body-wrapped card, plain text): stop at the first 2xx response,
    otherwise fall through; the third non-2xx response or exception
    yields the error result. -/
def send_ollama_response (o1 o2 o3 : HttpOutcome) : DeliveryResult × Nat :=
  match o1 with
  | .response c _ =>
      if is2xx c then (.success c "ルートレベルattachments", 1)
      else send_legacy o2 o3
  | .failure _ => send_legacy o2 o3
where
  send_legacy (o2 o3 : HttpOutcome) : DeliveryResult × Nat :=
    match o2 with
    | .response c _ =>
        if is2xx c then (.success c "従来形式", 2)
        else send_simple o3
    | .failure _ => send_simple o3
  send_simple (o3 : HttpOutcome) : DeliveryResult × Nat :=
    match o3 with
    | .response c t =>
        if is2xx c then (.success c "シンプル", 3)
        else (.error (some c) t, 3)
    | .failure e => (.error none e, 3)

/-- C5: the fixed fallback order with first-2xx stopping: a 2xx on the
    first shape returns after one POST naming the root-level attachments
    format; with the first two attempts failed, a 2xx third response
    returns a success result naming the plain-text format after exactly
    three POSTs; a non-2xx third response yields an error result carrying
    its status code and body, and a third-attempt exception yields an
    error result carrying its message, in both cases after three POSTs. -/
theorem C5_fallback_chain (o1 o2 o3 : HttpOutcome) :
    (∀ c t, o1 = .response c t → is2xx c = true →
      send_ollama_response o1 o2 o3 = (.success c "ルートレベルattachments", 1)) ∧
    (attemptFails o1 = true → ∀ c t, o2 = .response c t → is2xx c = true →
      send_ollama_response o1 o2 o3 = (.success c "従来形式", 2)) ∧
    (attemptFails o1 = true → attemptFails o2 = true → ∀ c t, o3 = .response c t →
      (is2xx c = true → send_ollama_response o1 o2 o3 = (.success c "シンプル", 3)) ∧
      (is2xx c = false → send_ollama_response o1 o2 o3 = (.error (some c) t, 3))) ∧
    (attemptFails o1 = true → attemptFails o2 = true → ∀ e, o3 = .failure e →
      send_ollama_response o1 o2 o3 = (.error none e, 3)) := by
  have step1 : attemptFails o1 = true →
      send_ollama_response o1 o2 o3 = send_ollama_response.send_legacy o2 o3 := by
    intro h
    cases o1 with
    | response c t =>
        simp only [attemptFails, Bool.not_eq_true'] at h
        simp [send_ollama_response, h]
    | failure e => rfl
  have step2 : attemptFails o2 = true →
      send_ollama_response.send_legacy o2 o3 = send_ollama_response.send_simple o3 := by
    intro h
    cases o2 with
    | response c t =>
        simp only [attemptFails, Bool.not_eq_true'] at h
        simp [send_ollama_response.send_legacy, h]
    | failure e => rfl
  refine ⟨?_, ?_, ?_, ?_⟩
  · intro c t h1 h2
    subst h1
    simp [send_ollama_response, h2]
  · intro hf c t h1 h2
    subst h1
    rw [step1 hf]
    simp [send_ollama_response.send_legacy, h2]
  · intro hf1 hf2 c t h1
    subst h1
    rw [step1 hf1, step2 hf2]
    constructor
    · intro h2
      simp [send_ollama_response.send_simple, h2]
    · intro h2
      simp [send_ollama_response.send_simple, h2]
  · intro hf1 hf2 e h1
    subst h1
    rw [step1 hf1, step2 hf2]
    rfl

/-- C5 witness: a 400 first attempt, a timeout second attempt and a 200
    third attempt produce the simple-format success after three POSTs; a
    500 third response instead produces the error result with its code
    and body. -/
theorem C5_witness :
    send_ollama_response (.response 400 "bad") (.failure "timeout") (.response 200 "ok")
      = (.success 200 "シンプル", 3) ∧
    send_ollama_response (.response 400 "bad") (.failure "timeout") (.response 500 "boom")
      = (.error (some 500) "boom", 3) ∧
    send_ollama_response (.response 200 "ok") (.failure "x") (.failure "y")
      = (.success 200 "ルートレベルattachments", 1) := by
  refine ⟨?_, ?_, ?_⟩
  · exact ((C5_fallback_chain (.response 400 "bad") (.failure "timeout") (.response 200 "ok")).2.2.1
      (by decide) (by decide) 200 "ok" rfl).1 (by decide)
  · exact ((C5_fallback_chain (.response 400 "bad") (.failure "timeout") (.response 500 "boom")).2.2.1
      (by decide) (by decide) 500 "boom" rfl).2 (by decide)
  · exact (C5_fallback_chain (.response 200 "ok") (.failure "x") (.failure "y")).1
      200 "ok" rfl (by decide)

/-! ## teams_webhook.send_ollama_response: block splitting and capping -/

/-- The character class stripped by remove_control_chars (control
    characters, surrogates, and the two non-characters; carriage return
    0x0D is not in the class). -/
def ctrlChar (c : Char) : Bool :=
  c.toNat ≤ 8 || c.toNat = 11 || c.toNat = 12 || (14 ≤ c.toNat && c.toNat ≤ 31) ||
    (0xD800 ≤ c.toNat && c.toNat ≤ 0xDFFF) || c.toNat = 0xFFFE || c.toNat = 0xFFFF

/-- Model of remove_control_chars. -/
def removeControlChars (s : String) : String :=
  String.mk (s.data.filter (fun c => !ctrlChar c))

/-- Python text.split(newline), keeping empty pieces. -/
def splitNl : List Char → List (List Char)
  | [] => [[]]
  | c :: t =>
      if c = '\n' then [] :: splitNl t
      else
        match splitNl t with
        | h :: r => (c :: h) :: r
        | [] => [[c]]

/-- Python str.replace with a non-empty pattern, scanning left to right
    without overlap; the fuel (at least the input length) keeps the
    recursion structural. -/
def replaceGo (pat rep : List Char) : Nat → List Char → List Char
  | _, [] => []
  | 0, l => l
  | n + 1, c :: t =>
      if pat.isPrefixOf (c :: t) then rep ++ replaceGo pat rep n (t.drop (pat.length - 1))
      else c :: replaceGo pat rep n t

/-- line.replace(double asterisk, empty).replace(asterisk space, middle
    dot), the markdown rewriting of split_text_blocks. -/
def transformLine (l : List Char) : List Char :=
  let l1 := replaceGo "**".data "".data l.length l
  replaceGo "* ".data "・".data l1.length l1

/-- The accumulation loop of split_text_blocks: a line that would push
    the buffer past 900 characters (plus the joining newline) flushes the
    buffer, otherwise it is joined onto it; a final non-empty buffer is
    flushed. -/
def splitBlocksGo : List (List Char) → List Char → List (List Char)
  | [], buf => if buf.isEmpty then [] else [buf]
  | l :: ls, buf =>
      if buf.length + (transformLine l).length + 1 > 900 then
        buf :: splitBlocksGo ls (transformLine l)
      else
        splitBlocksGo ls (if buf.isEmpty then transformLine l else buf ++ '\n' :: transformLine l)

/-- Model of split_text_blocks with the default 900-character cap. -/
def split_text_blocks (text : String) : List String :=
  (splitBlocksGo (splitNl text.data) []).map String.mk

/-- The capping loop: stop before a block that would be the eleventh or
    would push the total past 9000 characters. -/
def limitBlocks : List String → Nat → Nat → List String
  | [], _, _ => []
  | b :: bs, nblocks, total =>
      if nblocks ≥ 10 || total + b.length > 9000 then []
      else b :: limitBlocks bs (nblocks + 1) (total + b.length)

/-- Sum of the block lengths, the total_len counter. -/
def totalLen (l : List String) : Nat :=
  (l.map String.length).sum

/-- The truncation notice block. -/
def truncNotice : String :=
  "（一部省略されています。全文は管理者にお問い合わせください）"

/-- The final block list send_ollama_response builds from the sanitized
    answer: split, cap, and append the truncation notice whenever more
    than ten blocks were split or the kept total falls short of the
    sanitized answer length. -/
def responseBlocks (resp : String) : List String :=
  let s := removeControlChars resp
  let blocks := split_text_blocks s
  let limited := limitBlocks blocks 0 0
  if blocks.length > 10 || totalLen limited < s.length then limited ++ [truncNotice]
  else limited

example : split_text_blocks "a\nb" = ["a\nb"] := by decide
example : split_text_blocks "** hi\n* item" = [" hi\n・item"] := by decide
example : responseBlocks "a\nb" = ["a\nb"] := by decide
example : responseBlocks "hello" = ["hello"] := by decide
example :
    (responseBlocks (String.mk (List.flatten (List.replicate 20 ['x', '\n'])))).length = 1 := by decide

/-! ### Support lemmas for the block splitter -/

lemma splitNl_no_newline (cs : List Char) (h : '\n' ∉ cs) : splitNl cs = [cs] := by
  induction cs with
  | nil => rfl
  | cons c t ih =>
      have hc : c ≠ '\n' := fun he => h (he ▸ List.mem_cons_self _ _)
      have ht : '\n' ∉ t := fun he => h (List.mem_cons_of_mem _ he)
      simp only [splitNl, if_neg hc, ih ht]

lemma replaceGo_no_head (p : Char) (ps rep : List Char) :
    ∀ (n : Nat) (l : List Char), (∀ c ∈ l, c ≠ p) → replaceGo (p :: ps) rep n l = l := by
  intro n
  induction n with
  | zero => intro l _; cases l <;> rfl
  | succ n ih =>
      intro l hl
      cases l with
      | nil => rfl
      | cons c t =>
          have hc : (p == c) = false := by
            have := hl c (List.mem_cons_self _ _)
            simp [BEq.beq]
            exact fun he => this he.symm
          have hpre : (p :: ps).isPrefixOf (c :: t) = false := by
            simp [List.isPrefixOf, hc]
          simp only [replaceGo, hpre, Bool.false_eq_true, if_false]
          rw [ih t (fun x hx => hl x (List.mem_cons_of_mem _ hx))]

lemma transformLine_all_a (n : Nat) :
    transformLine (List.replicate n 'a') = List.replicate n 'a' := by
  unfold transformLine
  have hstar : ∀ c ∈ List.replicate n 'a', c ≠ '*' := by
    intro c hc
    rw [List.eq_of_mem_replicate hc]
    decide
  rw [show "**".data = '*' :: ['*'] from rfl, show "* ".data = '*' :: [' '] from rfl]
  rw [replaceGo_no_head _ _ _ _ _ hstar]
  rw [replaceGo_no_head _ _ _ _ _ hstar]

lemma removeControlChars_rep_a (n : Nat) :
    removeControlChars (String.mk (List.replicate n 'a')) = String.mk (List.replicate n 'a') := by
  unfold removeControlChars
  rw [show (String.mk (List.replicate n 'a')).data = List.replicate n 'a' from rfl,
    List.filter_eq_self.mpr]
  intro c hc
  rw [List.eq_of_mem_replicate hc]
  decide

lemma split_text_blocks_rep_a (n : Nat) (h : 900 < n + 1) :
    split_text_blocks (String.mk (List.replicate n 'a')) =
      ["", String.mk (List.replicate n 'a')] := by
  unfold split_text_blocks
  rw [show (String.mk (List.replicate n 'a')).data = List.replicate n 'a' from rfl]
  rw [splitNl_no_newline _ (fun hm => absurd (List.eq_of_mem_replicate hm) (by decide))]
  rw [splitBlocksGo, transformLine_all_a]
  rw [if_pos (by simp only [List.length_nil, List.length_replicate]; omega)]
  rw [splitBlocksGo]
  rw [if_neg (by simp only [List.isEmpty_iff, List.replicate_eq_nil_iff]; omega)]
  rfl

/-- C6 counterexample: a single line of 1000 characters is kept as one
    block of length 1000, far above the ~900-character cap: the splitter
    only breaks on line boundaries, so an unsplittable long line becomes
    one oversized block (preceded by an empty flushed buffer). -/
theorem C6_counterexample :
    String.mk (List.replicate 1000 'a') ∈
      responseBlocks (String.mk (List.replicate 1000 'a')) ∧
    900 < (String.mk (List.replicate 1000 'a')).length := by
  have hctrl := removeControlChars_rep_a 1000
  have hsplit := split_text_blocks_rep_a 1000 (by omega)
  have hlen : (String.mk (List.replicate 1000 'a')).length = 1000 := by
    rw [length_mk, List.length_replicate]
  have hlimit : limitBlocks ["", String.mk (List.replicate 1000 'a')] 0 0 =
      ["", String.mk (List.replicate 1000 'a')] := by
    simp only [limitBlocks, hlen]
    norm_num
  have hresp : responseBlocks (String.mk (List.replicate 1000 'a')) =
      ["", String.mk (List.replicate 1000 'a')] := by
    unfold responseBlocks
    rw [hctrl]
    dsimp only
    rw [hsplit, hlimit]
    rw [if_neg (by simp [totalLen, hlen])]
  rw [hresp, hlen]
  constructor
  · exact List.mem_cons_of_mem _ (List.mem_cons_self _ _)
  · omega

lemma replaceGo_length (pat rep : List Char) (hrep : rep.length ≤ pat.length) :
    ∀ (n : Nat) (l : List Char), (replaceGo pat rep n l).length ≤ l.length := by
  intro n
  induction n with
  | zero => intro l; cases l <;> simp [replaceGo]
  | succ n ih =>
      intro l
      cases l with
      | nil => simp [replaceGo]
      | cons c t =>
          simp only [replaceGo]
          split
          · rename_i hpre
            have hplen : pat.length ≤ t.length + 1 :=
              by simpa using (List.isPrefixOf_iff_prefix.mp hpre).length_le
            have hrec := ih (t.drop (pat.length - 1))
            rw [List.length_append, List.length_cons]
            have hdrop : (t.drop (pat.length - 1)).length = t.length - (pat.length - 1) :=
              List.length_drop _ _
            omega
          · rw [List.length_cons, List.length_cons]
            have := ih t
            omega

lemma transformLine_length (l : List Char) : (transformLine l).length ≤ l.length := by
  unfold transformLine
  exact le_trans (replaceGo_length "* ".data "・".data (by decide) _ _)
    (replaceGo_length "**".data "".data (by decide) _ _)

lemma replaceGo_mem (pat rep : List Char) :
    ∀ (n : Nat) (l : List Char) (c : Char), c ∈ replaceGo pat rep n l → c ∈ rep ∨ c ∈ l := by
  intro n
  induction n with
  | zero => intro l c hc; cases l <;> simp_all [replaceGo]
  | succ n ih =>
      intro l c hc
      cases l with
      | nil => simp [replaceGo] at hc
      | cons x t =>
          simp only [replaceGo] at hc
          split at hc
          · rcases List.mem_append.mp hc with h | h
            · exact Or.inl h
            · rcases ih _ c h with h2 | h2
              · exact Or.inl h2
              · exact Or.inr (List.mem_cons_of_mem _ (List.drop_subset _ _ h2))
          · rcases List.mem_cons.mp hc with h | h
            · exact Or.inr (h ▸ List.mem_cons_self _ _)
            · rcases ih _ c h with h2 | h2
              · exact Or.inl h2
              · exact Or.inr (List.mem_cons_of_mem _ h2)

lemma transformLine_no_newline (l : List Char) (h : '\n' ∉ l) : '\n' ∉ transformLine l := by
  intro hmem
  unfold transformLine at hmem
  rcases replaceGo_mem "* ".data "・".data _ _ _ hmem with h1 | h1
  · exact absurd h1 (by decide)
  · rcases replaceGo_mem "**".data "".data _ _ _ h1 with h2 | h2
    · exact absurd h2 (by decide)
    · exact h h2

lemma splitNl_parts_no_newline : ∀ (cs : List Char), ∀ p ∈ splitNl cs, '\n' ∉ p := by
  intro cs
  induction cs with
  | nil =>
      intro p hp
      simp only [splitNl, List.mem_cons, List.not_mem_nil, or_false] at hp
      simp [hp]
  | cons c t ih =>
      intro p hp
      by_cases hc : c = '\n'
      · rw [splitNl, if_pos hc] at hp
        rcases List.mem_cons.mp hp with h | h
        · simp [h]
        · exact ih p h
      · rw [splitNl, if_neg hc] at hp
        rcases hsp : splitNl t with _ | ⟨h0, r⟩
        · rw [hsp] at hp
          simp only [List.mem_cons, List.not_mem_nil, or_false] at hp
          intro hmem
          rw [hp] at hmem
          rcases List.mem_cons.mp hmem with h | h
          · exact hc h.symm
          · simp at h
        · rw [hsp] at hp
          rcases List.mem_cons.mp hp with h | h
          · intro hmem
            rw [h] at hmem
            rcases List.mem_cons.mp hmem with h2 | h2
            · exact hc h2.symm
            · exact ih h0 (hsp ▸ List.mem_cons_self _ _) h2
          · exact ih p (hsp ▸ List.mem_cons_of_mem _ h)

lemma splitBlocksGo_shape : ∀ (lines : List (List Char)) (buf : List Char),
    (∀ l ∈ lines, '\n' ∉ l) → (buf.length ≤ 900 ∨ '\n' ∉ buf) →
    ∀ b ∈ splitBlocksGo lines buf, b.length ≤ 900 ∨ '\n' ∉ b := by
  intro lines
  induction lines with
  | nil =>
      intro buf _ hbuf b hb
      simp only [splitBlocksGo] at hb
      split at hb
      · simp at hb
      · simp only [List.mem_cons, List.not_mem_nil, or_false] at hb
        exact hb ▸ hbuf
  | cons l ls ih =>
      intro buf hlines hbuf b hb
      have hl : '\n' ∉ l := hlines l (List.mem_cons_self _ _)
      have hls : ∀ x ∈ ls, '\n' ∉ x := fun x hx => hlines x (List.mem_cons_of_mem _ hx)
      have hlt : '\n' ∉ transformLine l := transformLine_no_newline l hl
      simp only [splitBlocksGo] at hb
      split at hb
      · rcases List.mem_cons.mp hb with h | h
        · exact h ▸ hbuf
        · exact ih (transformLine l) hls (Or.inr hlt) b h
      · rename_i hle
        by_cases hbe : buf.isEmpty
        · rw [if_pos hbe] at hb
          exact ih _ hls (Or.inr hlt) b hb
        · rw [if_neg hbe] at hb
          refine ih _ hls (Or.inl ?_) b hb
          rw [List.length_append, List.length_cons]
          omega

lemma limitBlocks_subset : ∀ (l : List String) (n t : Nat) (b : String),
    b ∈ limitBlocks l n t → b ∈ l := by
  intro l
  induction l with
  | nil => intro n t b hb; simp [limitBlocks] at hb
  | cons x xs ih =>
      intro n t b hb
      simp only [limitBlocks] at hb
      split at hb
      · simp at hb
      · rcases List.mem_cons.mp hb with h | h
        · exact h ▸ List.mem_cons_self _ _
        · exact List.mem_cons_of_mem _ (ih _ _ b h)

lemma limitBlocks_count : ∀ (l : List String) (n t : Nat),
    (limitBlocks l n t).length + n ≤ max n 10 := by
  intro l
  induction l with
  | nil => intro n t; simp [limitBlocks]
  | cons x xs ih =>
      intro n t
      simp only [limitBlocks]
      split
      · simp
      · rename_i hguard
        simp only [Bool.or_eq_true, decide_eq_true_eq, not_or] at hguard
        have := ih (n + 1) (t + x.length)
        simp only [List.length_cons]
        omega

lemma totalLen_cons (b : String) (l : List String) :
    totalLen (b :: l) = b.length + totalLen l := by
  simp [totalLen]

lemma limitBlocks_total : ∀ (l : List String) (n t : Nat),
    t + totalLen (limitBlocks l n t) ≤ max t 9000 := by
  intro l
  induction l with
  | nil => intro n t; simp [limitBlocks, totalLen]
  | cons x xs ih =>
      intro n t
      simp only [limitBlocks]
      split
      · simp [totalLen]
      · rename_i hguard
        simp only [Bool.or_eq_true, decide_eq_true_eq, not_or, not_lt] at hguard
        have := ih (n + 1) (t + x.length)
        rw [totalLen_cons]
        omega

lemma limitBlocks_cases : ∀ (l : List String) (n t : Nat),
    limitBlocks l n t = l ∨
      ∃ pre b post, l = pre ++ b :: post ∧ limitBlocks l n t = pre ∧
        (10 ≤ n + pre.length ∨ 9000 < t + totalLen pre + b.length) := by
  intro l
  induction l with
  | nil => intro n t; exact Or.inl rfl
  | cons x xs ih =>
      intro n t
      by_cases hguard : (decide (n ≥ 10) || decide (t + x.length > 9000)) = true
      · refine Or.inr ⟨[], x, xs, rfl, ?_, ?_⟩
        · simp only [limitBlocks]
          rw [if_pos hguard]
        · simp only [Bool.or_eq_true, decide_eq_true_eq] at hguard
          rcases hguard with h | h
          · exact Or.inl (by simpa using h)
          · exact Or.inr (by simp [totalLen]; omega)
      · have hlim : limitBlocks (x :: xs) n t = x :: limitBlocks xs (n + 1) (t + x.length) := by
          simp only [limitBlocks]
          rw [if_neg hguard]
        rcases ih (n + 1) (t + x.length) with h | ⟨pre, b, post, hxs, hrec, hcond⟩
        · exact Or.inl (by rw [hlim, h])
        · refine Or.inr ⟨x :: pre, b, post, by rw [List.cons_append, ← hxs], ?_, ?_⟩
          · rw [hlim, hrec]
          · rcases hcond with h | h
            · exact Or.inl (by simp only [List.length_cons]; omega)
            · refine Or.inr ?_
              rw [totalLen_cons]
              omega

/-- Transformed lengths of the lines. -/
def tSum : List (List Char) → Nat
  | [] => 0
  | l :: ls => (transformLine l).length + tSum ls

/-- Raw lengths of the lines, one separator each. -/
def rawLineSum : List (List Char) → Nat
  | [] => 0
  | l :: ls => l.length + 1 + rawLineSum ls

/-- Sum of block lengths at the character-list level. -/
def listTotal (l : List (List Char)) : Nat :=
  (l.map List.length).sum

/-- One pending separator when the buffer is non-empty. -/
def bufBonus (buf : List Char) : Nat :=
  if buf.isEmpty then 0 else 1

lemma rawLineSum_splitNl : ∀ (cs : List Char), rawLineSum (splitNl cs) = cs.length + 1 := by
  intro cs
  induction cs with
  | nil => rfl
  | cons c t ih =>
      by_cases hc : c = '\n'
      · rw [splitNl, if_pos hc]
        simp only [rawLineSum, List.length_nil, List.length_cons]
        omega
      · rw [splitNl, if_neg hc]
        rcases hsp : splitNl t with _ | ⟨h0, r⟩
        · rw [hsp] at ih
          simp [rawLineSum] at ih
        · rw [hsp] at ih
          simp only [rawLineSum, List.length_cons] at ih ⊢
          omega

lemma tSum_add_length_le : ∀ (lines : List (List Char)),
    tSum lines + lines.length ≤ rawLineSum lines := by
  intro lines
  induction lines with
  | nil => simp [tSum, rawLineSum]
  | cons l ls ih =>
      simp only [tSum, rawLineSum, List.length_cons]
      have := transformLine_length l
      omega

lemma splitBlocksGo_total : ∀ (lines : List (List Char)) (buf : List Char),
    listTotal (splitBlocksGo lines buf) = 0 ∨
      (listTotal (splitBlocksGo lines buf) : Int) ≤
        (buf.length : Int) + bufBonus buf + tSum lines + lines.length - 1 := by
  intro lines
  induction lines with
  | nil =>
      intro buf
      by_cases hbe : buf.isEmpty
      · left
        simp [splitBlocksGo, hbe, listTotal]
      · right
        simp only [splitBlocksGo, hbe, Bool.false_eq_true, if_false, listTotal, List.map_cons,
          List.map_nil, List.sum_cons, List.sum_nil, tSum, List.length_nil, bufBonus]
        push_cast
        omega
  | cons l ls ih =>
      intro buf
      simp only [splitBlocksGo]
      split
      · rename_i hgt
        right
        rcases ih (transformLine l) with h | h
        · simp only [listTotal, List.map_cons, List.sum_cons] at h ⊢
          rw [h]
          simp only [tSum, List.length_cons, bufBonus]
          split <;> (push_cast; omega)
        · simp only [listTotal, List.map_cons, List.sum_cons] at h ⊢
          simp only [tSum, List.length_cons, bufBonus] at h ⊢
          have hb1 : (if buf.isEmpty then (0 : Nat) else 1) ≤ 1 := by split <;> omega
          have hb2 : (if (transformLine l).isEmpty then (0 : Nat) else 1) ≤ 1 := by
            split <;> omega
          push_cast at h ⊢
          omega
      · rename_i hle
        by_cases hbe : buf.isEmpty
        · rw [if_pos hbe]
          rcases ih (transformLine l) with h | h
          · exact Or.inl h
          · right
            have hb0 : buf.length = 0 := by
              cases buf
              · rfl
              · simp [List.isEmpty] at hbe
            simp only [tSum, List.length_cons, bufBonus, hbe, if_true, hb0]
            simp only [bufBonus] at h
            have hb2 : (if (transformLine l).isEmpty then (0 : Nat) else 1) ≤ 1 := by
              split <;> omega
            push_cast at h ⊢
            omega
        · rw [if_neg hbe]
          rcases ih (buf ++ '\n' :: transformLine l) with h | h
          · exact Or.inl h
          · right
            have hlen : (buf ++ '\n' :: transformLine l).length =
                buf.length + 1 + (transformLine l).length := by
              rw [List.length_append, List.length_cons]
              omega
            have hne : (buf ++ '\n' :: transformLine l).isEmpty = false := by
              cases buf
              · simp [List.isEmpty] at hbe
              · rfl
            simp only [bufBonus, hne, Bool.false_eq_true, if_false, hlen] at h
            simp only [tSum, List.length_cons, bufBonus, hbe, Bool.false_eq_true, if_false]
            push_cast at h ⊢
            omega

lemma totalLen_map_mk (l : List (List Char)) : totalLen (l.map String.mk) = listTotal l := by
  induction l with
  | nil => rfl
  | cons x xs ih =>
      simp only [List.map_cons, totalLen_cons, ih, listTotal, List.map_cons, List.sum_cons]
      rfl

lemma totalLen_append (l1 l2 : List String) :
    totalLen (l1 ++ l2) = totalLen l1 + totalLen l2 := by
  simp [totalLen]

/-- C6: the claim as frozen is amended. Every kept block either stays
    within the 900-character cap or is a single line without a newline (a
    line longer than the cap is never split and becomes one oversized
    block, see the counterexample); the kept blocks are capped at ten and
    9000 total characters; and whenever the capping loop dropped a block,
    the explicit truncation notice block is appended. -/
theorem C6_block_discipline (resp : String) :
    (∀ b ∈ limitBlocks (split_text_blocks (removeControlChars resp)) 0 0,
      b.length ≤ 900 ∨ '\n' ∉ b.data) ∧
    (limitBlocks (split_text_blocks (removeControlChars resp)) 0 0).length ≤ 10 ∧
    totalLen (limitBlocks (split_text_blocks (removeControlChars resp)) 0 0) ≤ 9000 ∧
    (limitBlocks (split_text_blocks (removeControlChars resp)) 0 0 ≠
        split_text_blocks (removeControlChars resp) →
      truncNotice ∈ responseBlocks resp) := by
  set s := removeControlChars resp with hs
  refine ⟨?_, ?_, ?_, ?_⟩
  · intro b hb
    have hbs := limitBlocks_subset _ _ _ _ hb
    unfold split_text_blocks at hbs
    obtain ⟨bl, hbl, hmk⟩ := List.mem_map.mp hbs
    have hshape := splitBlocksGo_shape (splitNl s.data) []
      (splitNl_parts_no_newline s.data) (Or.inl (by simp)) bl hbl
    rw [← hmk]
    exact hshape
  · have := limitBlocks_count (split_text_blocks s) 0 0
    simpa using this
  · have := limitBlocks_total (split_text_blocks s) 0 0
    simpa using this
  · intro hne
    rcases limitBlocks_cases (split_text_blocks s) 0 0 with h | ⟨pre, bb, post, hsplit, hlim, hcond⟩
    · exact absurd h hne
    · have hcondtrue : (decide ((split_text_blocks s).length > 10) ||
          decide (totalLen (limitBlocks (split_text_blocks s) 0 0) < s.length)) = true := by
        rcases hcond with h | h
        · have hx : 10 < (split_text_blocks s).length := by
            rw [hsplit]
            simp only [List.length_append, List.length_cons]
            omega
          simp [hx]
        · have hpre9000 : totalLen pre ≤ 9000 := by
            have h1 := limitBlocks_total (split_text_blocks s) 0 0
            rw [hlim] at h1
            simpa using h1
          have hbb1 : 1 ≤ bb.length := by omega
          have hblocks : totalLen (split_text_blocks s) =
              totalLen pre + bb.length + totalLen post := by
            rw [hsplit, totalLen_append, totalLen_cons]
            omega
          have hstot : totalLen (split_text_blocks s) ≤ s.length := by
            unfold split_text_blocks
            rw [totalLen_map_mk]
            rcases splitBlocksGo_total (splitNl s.data) [] with h2 | h2
            · omega
            · have h3 := tSum_add_length_le (splitNl s.data)
              have h4 := rawLineSum_splitNl s.data
              have h5 : s.length = s.data.length := rfl
              simp only [List.length_nil, bufBonus, List.isEmpty_nil, if_true] at h2
              omega
          have hfin : totalLen (limitBlocks (split_text_blocks s) 0 0) < s.length := by
            rw [hlim]
            omega
          simp [hfin]
      unfold responseBlocks
      dsimp only
      rw [← hs, if_pos hcondtrue]
      exact List.mem_append.mpr (Or.inr (List.mem_cons_self _ _))



/-- C6 witness: the single block built from the short answer hello obeys
    the block discipline, and for an answer of 9500 identical characters
    the capping loop drops the oversized block and the truncation notice
    is appended. -/
theorem C6_witness :
    ("hello".length ≤ 900 ∨ '\n' ∉ "hello".data) ∧
    truncNotice ∈ responseBlocks (String.mk (List.replicate 9500 'a')) := by
  constructor
  · exact (C6_block_discipline "hello").1 "hello" (by decide)
  · have hctrl := removeControlChars_rep_a 9500
    have hsplit := split_text_blocks_rep_a 9500 (by omega)
    have hlen : (String.mk (List.replicate 9500 'a')).length = 9500 := by
      rw [length_mk, List.length_replicate]
    have hlimit : limitBlocks ["", String.mk (List.replicate 9500 'a')] 0 0 = [""] := by
      rw [limitBlocks]
      rw [if_neg (by decide)]
      rw [limitBlocks]
      rw [if_pos (by simp only [hlen]; decide)]
    refine (C6_block_discipline (String.mk (List.replicate 9500 'a'))).2.2.2 ?_
    rw [hctrl, hsplit, hlimit]
    simp

/-!
## C3 — file_extractor.extract_file_content (src/file_extractor.py 62-111)

The extractor is modeled over an environment record that carries the outcome
of every OS / library effect the Python code performs: existence, size and
access checks, `os.stat` for the metadata header, availability of the four
rich-document libraries, and the result of each library read, subprocess
fallback, and text read.  Each Python `try/except` that returns an error
string is modeled by matching on an `Except`-valued field; `preExc` models an
exception escaping the body to the outer handler (PermissionError vs other).
-/

def apostr : String := (Char.ofNat 39).toString

def pyBasename (p : String) : String :=
  String.mk (p.data.foldl (fun acc c => if c = '/' ∨ c = '\\' then [] else acc ++ [c]) [])

def splitextExt (p : String) : String :=
  let b := (pyBasename p).data
  let rest := b.drop (b.takeWhile (fun c => c == '.')).length
  let tailRev := rest.reverse.takeWhile (fun c => c != '.')
  if tailRev.length = rest.length then "" else String.mk ('.' :: tailRev.reverse)

example : splitextExt (pyLower "C:\\Docs\\Report.PDF") = ".pdf" := by decide
example : splitextExt ".bashrc" = "" := by decide
example : splitextExt "a..txt" = ".txt" := by decide
example : splitextExt "a.txt." = "." := by decide
example : splitextExt "a/b.c/d" = "" := by decide
example : pyBasename "a/b.c/d" = "d" := by decide

def fmtTenths (tenths : Nat) : String :=
  toString (tenths / 10) ++ "." ++ toString (tenths % 10)

/-- Python renders sizes with an f-string `:.1f`; the one-decimal rendering is
modeled by rounding half up on tenths (it can differ from float half-even
rounding only on exact ties, which no claim depends on). -/
def sizeMBStr (size : Nat) : String := fmtTenths ((size * 10 + 524288) / 1048576)

def sizeKBStr (size : Nat) : String := fmtTenths ((size * 10 + 512) / 1024)

def file_size_str (size : Nat) : String :=
  if size < 1024 then toString size ++ " bytes"
  else if size < 1048576 then sizeKBStr size ++ " KB"
  else sizeMBStr size ++ " MB"

structure ExtractEnv where
  preExc : Option (Bool × String)
  pathExists : Bool
  fileSize : Nat
  readable : Bool
  statResult : Except String (Nat × String)
  pdfLib : Bool
  docxLib : Bool
  xlsxLib : Bool
  pptxLib : Bool
  pdfRead : Except String (List String)
  docxRead : Except String (List String)
  xlsxRead : Except String (List String)
  pptxRead : Except String (List String)
  shellRun : Except String String
  textRead : Except String (String × Bool)

def get_file_info (path : String) (st : Except String (Nat × String)) : String :=
  match st with
  | Except.ok (size, mtime) =>
      "ファイル名: " ++ pyBasename path ++ "\nファイルサイズ: " ++ file_size_str size ++
        "\n最終更新日時: " ++ mtime
  | Except.error _ => "ファイル名: " ++ pyBasename path

def extract_text (path : String) (env : ExtractEnv) : String :=
  match env.textRead with
  | Except.error e => "テキストファイル読み込みエラー: " ++ e
  | Except.ok (content, garbled) =>
      if garbled then
        get_file_info path env.statResult ++ "\n\n" ++ content ++
          " (エンコーディングの問題があるため、一部文字化けしている可能性があります)"
      else get_file_info path env.statResult ++ "\n\n" ++ content

def extract_pdf_fallback (file_info : String) (env : ExtractEnv) : String :=
  match env.shellRun with
  | Except.ok out => file_info ++ "\n\n" ++ out
  | Except.error e => file_info ++ "\n\nPDF抽出エラー: " ++ e

def extract_pdf (path : String) (env : ExtractEnv) : String :=
  if env.pdfLib then
    match env.pdfRead with
    | Except.ok text_content =>
        get_file_info path env.statResult ++ "\n\n" ++ String.intercalate "\n" text_content
    | Except.error _ => extract_pdf_fallback (get_file_info path env.statResult) env
  else extract_pdf_fallback (get_file_info path env.statResult) env

def extract_docx_fallback (file_info : String) (env : ExtractEnv) : String :=
  match env.shellRun with
  | Except.ok out => file_info ++ "\n\n" ++ out
  | Except.error e => file_info ++ "\n\nWord抽出エラー: " ++ e

def extract_docx (path : String) (env : ExtractEnv) : String :=
  if env.docxLib then
    match env.docxRead with
    | Except.ok text_content =>
        get_file_info path env.statResult ++ "\n\n" ++ String.intercalate "\n" text_content
    | Except.error _ => extract_docx_fallback (get_file_info path env.statResult) env
  else extract_docx_fallback (get_file_info path env.statResult) env

def extract_xlsx_fallback (file_info : String) (env : ExtractEnv) : String :=
  match env.shellRun with
  | Except.ok out => file_info ++ "\n\n" ++ out
  | Except.error e => file_info ++ "\n\nExcel抽出エラー: " ++ e

def extract_xlsx (path : String) (env : ExtractEnv) : String :=
  if env.xlsxLib then
    match env.xlsxRead with
    | Except.ok text_content =>
        get_file_info path env.statResult ++ "\n\n" ++ String.intercalate "\n" text_content
    | Except.error _ => extract_xlsx_fallback (get_file_info path env.statResult) env
  else extract_xlsx_fallback (get_file_info path env.statResult) env

def extract_pptx_fallback (file_info : String) (env : ExtractEnv) : String :=
  match env.shellRun with
  | Except.ok out => file_info ++ "\n\n" ++ out
  | Except.error e => file_info ++ "\n\nPowerPoint抽出エラー: " ++ e

def extract_pptx (path : String) (env : ExtractEnv) : String :=
  if env.pptxLib then
    match env.pptxRead with
    | Except.ok text_content =>
        get_file_info path env.statResult ++ "\n\n" ++ String.intercalate "\n" text_content
    | Except.error _ => extract_pptx_fallback (get_file_info path env.statResult) env
  else extract_pptx_fallback (get_file_info path env.statResult) env

def textExts : List String :=
  [".txt", ".md", ".csv", ".json", ".xml", ".html", ".htm", ".log", ".py", ".js", ".css"]

def extract_file_content (path : String) (env : ExtractEnv) : String :=
  match env.preExc with
  | some (isPerm, msg) =>
      if isPerm then
        "ファイル " ++ apostr ++ pyBasename path ++ apostr ++
          " へのアクセス権限がありません。システム管理者に確認してください。"
      else "ファイル抽出エラー: " ++ msg
  | none =>
      if env.pathExists = false then
        "ファイル " ++ apostr ++ pyBasename path ++ apostr ++
          " が見つかりません。削除または移動された可能性があります。"
      else if 104857600 < env.fileSize then
        "ファイル " ++ apostr ++ pyBasename path ++ apostr ++ " は" ++ sizeMBStr env.fileSize ++
          "MBと大きすぎるため、処理できません。"
      else if env.readable = false then
        "ファイル " ++ apostr ++ pyBasename path ++ apostr ++ " へのアクセス権限がありません。"
      else if splitextExt (pyLower path) = ".pdf" then extract_pdf path env
      else if splitextExt (pyLower path) = ".docx" then extract_docx path env
      else if splitextExt (pyLower path) = ".xlsx" then extract_xlsx path env
      else if splitextExt (pyLower path) = ".pptx" then extract_pptx path env
      else if textExts.contains (splitextExt (pyLower path)) then extract_text path env
      else
        "未対応のファイル形式 (" ++ splitextExt (pyLower path) ++ "):\n" ++
          get_file_info path env.statResult

example :
    extract_file_content "nope.xyz"
      (ExtractEnv.mk none false 0 false (Except.error "e") false false false false
        (Except.error "") (Except.error "") (Except.error "") (Except.error "")
        (Except.error "") (Except.error "")) =
    "ファイル " ++ apostr ++ "nope.xyz" ++ apostr ++
      " が見つかりません。削除または移動された可能性があります。" := by decide

example :
    extract_file_content "/tmp/t.zzz"
      (ExtractEnv.mk none true 2 true (Except.ok (2, "2026年10月12日 10:21:32")) false false
        false false (Except.error "") (Except.error "") (Except.error "") (Except.error "")
        (Except.error "") (Except.error "")) =
    "未対応のファイル形式 (.zzz):\nファイル名: t.zzz\nファイルサイズ: 2 bytes\n最終更新日時: 2026年10月12日 10:21:32" := by
  decide

lemma strPos (s t : String) (h : 0 < s.length) : 0 < (s ++ t).length := by
  rw [String.length_append]; omega

lemma get_file_info_pos (path : String) (st : Except String (Nat × String)) :
    0 < (get_file_info path st).length := by
  cases st with
  | ok v =>
      obtain ⟨size, mtime⟩ := v
      unfold get_file_info
      repeat' apply strPos
      decide
  | error e =>
      unfold get_file_info
      apply strPos
      decide

/-- C3: for every path and every outcome of the OS and library effects
(missing file, oversized file, unreadable file, failing rich-document reads,
failing subprocess fallbacks, failing text reads, unknown extension, and an
exception escaping to the outer handler), `extract_file_content` completes
and returns a non-empty string: every branch delivers either extracted
content prefixed by the metadata header or a labeled error / unsupported
message. -/
theorem C3_extract_file_content_nonempty (path : String) (env : ExtractEnv) :
    0 < (extract_file_content path env).length := by
  rcases env with ⟨pre, pex, fs, rd, st, pl, dl, xl, ptl, prd, drd, xrd, ptrd, sh, tr⟩
  unfold extract_file_content extract_pdf extract_docx extract_xlsx extract_pptx
    extract_text extract_pdf_fallback extract_docx_fallback extract_xlsx_fallback
    extract_pptx_fallback
  dsimp only
  repeat' split
  all_goals repeat' apply strPos
  all_goals first
    | decide
    | exact get_file_info_pos _ _

/-!
## C9 — routes.teams_webhook_handler verification phase (src/routes.py 36-62)
and teams_auth.bypass_teams_token (src/teams_auth.py 429-446)

`bypass_teams_token(config)` returns `SKIP_VERIFICATION or DEBUG`.  The
handler first asks for the bypass; when it is off it runs
`verify_teams_token` on the request body and the Authorization header, and
on failure returns 403 unless `config[DEBUG]` is set, in which case it logs
a warning and falls through to the message processing.  The model captures
the decision reached by that phase.
-/

def bypass_teams_token (skipVerif dbg : Bool) : Bool :=
  skipVerif || dbg

inductive AuthDecision where
  | unauthorized403 : AuthDecision
  | proceedSkipped : AuthDecision
  | proceedVerified : AuthDecision
  | proceedDebugWarn : AuthDecision
deriving DecidableEq

def teams_webhook_handler (skipVerif dbg : Bool) (reqData : Bytes)
    (signature token : String) (decodable : Bool) (jsonVars : List Bytes) : AuthDecision :=
  if bypass_teams_token skipVerif dbg then AuthDecision.proceedSkipped
  else if verify_teams_token reqData signature token decodable jsonVars then
    AuthDecision.proceedVerified
  else if dbg = false then AuthDecision.unauthorized403
  else AuthDecision.proceedDebugWarn

/-- C9: whenever signature verification fails and the bypass predicate is
off, the handler returns the unauthorized 403 decision in production mode
(DEBUG false) and the warn-and-proceed decision in debug mode (DEBUG true;
this case is vacuous because an active DEBUG flag already activates the
bypass); and `bypass_teams_token` returns true whenever the
skip-verification flag or the debug flag is set. -/
theorem C9_verification_failure_handling (skipVerif dbg decodable : Bool) (reqData : Bytes)
    (signature token : String) (jsonVars : List Bytes)
    (hbp : bypass_teams_token skipVerif dbg = false)
    (hfail : verify_teams_token reqData signature token decodable jsonVars = false) :
    (∀ s d : Bool, (s || d) = true → bypass_teams_token s d = true) ∧
    (dbg = false →
      teams_webhook_handler skipVerif dbg reqData signature token decodable jsonVars =
        AuthDecision.unauthorized403) ∧
    (dbg = true →
      teams_webhook_handler skipVerif dbg reqData signature token decodable jsonVars =
        AuthDecision.proceedDebugWarn) := by
  refine ⟨fun s d h => by simp [bypass_teams_token, h], ?_, ?_⟩
  · intro hdbg
    subst hdbg
    simp [teams_webhook_handler, hbp, hfail]
  · intro hdbg
    rw [bypass_teams_token, hdbg] at hbp
    simp at hbp

/-- C9 witness: with both flags off and an empty configured token,
verification fails and the handler rejects with 403. -/
theorem C9_witness :
    teams_webhook_handler false false [] "x" "" false [] = AuthDecision.unauthorized403 :=
  (C9_verification_failure_handling false false false [] "x" "" [] (by decide)
    (by decide)).2.1 rfl
